import Mathlib

/-!
Verification development for the json-schema-aot compiler
(src/generate-validator.ts, src/utils.ts).

The development shallowly embeds:
  * the JSON-Schema subset data model (src/json-schema.d.ts),
  * reference resolution (src/utils.ts: evaluatePath, evaluateReference,
    visitSchemaNodes, accumulateReferences),
  * the parser/validator code generator (src/generate-validator.ts:
    generateRecursive, generateParser) emitting JavaScript source text,
  * a step-indexed interpreter giving the runtime semantics of the
    generated JavaScript (one interpreter case per code template of
    generateRecursive).

JavaScript runtime values are modelled by `Js`; `typeof`, truthiness of
optional fields, `Object.entries`, and property assignment are modelled
explicitly.  Host regular-expression matching (`/p/.test(s)` spliced into
generated code) is an external primitive and is passed to the interpreter
as an oracle `rt : String → String → Bool`.
-/

namespace JsonSchemaAot

/-- A JavaScript runtime value, as handled by the generated code:
JSON scalars, `null`, `undefined`, `Date` objects, arrays and plain
objects (field lists in insertion order). Numbers are modelled as
integers (no claim depends on non-integral numbers). A `Date` carries
the string it was constructed from. -/
inductive Js where
  | str (s : String)
  | num (n : Int)
  | bool (b : Bool)
  | null
  | undef
  | date (s : String)
  | arr (elems : List Js)
  | obj (fields : List (String × Js))

/-- JavaScript `typeof`: `null`, `Date`, arrays and objects all give
"object"; `undefined` gives "undefined". -/
def Js.typeofStr : Js → String
  | .str _ => "string"
  | .num _ => "number"
  | .bool _ => "boolean"
  | .null => "object"
  | .undef => "undefined"
  | .date _ => "object"
  | .arr _ => "object"
  | .obj _ => "object"

/-- `x instanceof Date`. -/
def Js.isDate : Js → Bool
  | .date _ => true
  | _ => false

/-- `Array.isArray(x)`. -/
def Js.isArray : Js → Bool
  | .arr _ => true
  | _ => false

/-- `new Date(x)` for the two inputs the generated code can pass: a
string, or an already-parsed `Date` (copied). Other inputs never reach
the constructor in generated code; they are given an invalid date. -/
def jsNewDate : Js → Js
  | .str s => .date s
  | .date s => .date s
  | _ => .date "Invalid Date"

/-- `Object.entries(x)` for the values that pass the generated object
checks: a plain object yields its fields in insertion order; a `Date`
has no own enumerable properties. (Arrays and `null` are rejected
before `Object.entries` is reached.) -/
def jsEntries : Js → List (String × Js)
  | .obj fields => fields
  | _ => []

/-- JavaScript object property assignment `m[k] = v`: replaces the value
in place if the key exists (keeping its position), else appends. -/
def assocSet {α : Type} (m : List (String × α)) (k : String) (v : α) :
    List (String × α) :=
  match m with
  | [] => [(k, v)]
  | (k₀, v₀) :: rest =>
      if k₀ = k then (k₀, v) :: rest else (k₀, v₀) :: assocSet rest k v

/-- A node of the supported JSON-Schema subset (src/json-schema.d.ts).
Each optional key of the TypeScript interface is an `Option` field;
`additionalProperties` is `boolean | JSONSchema`, modelled as a sum.
Fields that no modelled operation reads (`description`, `$comment`,
`$schema`, `definitions`) are omitted. -/
inductive Schema : Type where
  | mk
      (title : Option String)
      (ref : Option String)
      (type : Option String)
      (pattern : Option String)
      (format : Option String)
      (anyOf : Option (List Schema))
      (allOf : Option (List Schema))
      (properties : Option (List (String × Schema)))
      (required : Option (List String))
      (additionalProperties : Option (Bool ⊕ Schema))
      (items : Option Schema)
      (defs : Option (List (String × Schema)))
      : Schema

def Schema.title : Schema → Option String
  | .mk t _ _ _ _ _ _ _ _ _ _ _ => t

def Schema.ref : Schema → Option String
  | .mk _ r _ _ _ _ _ _ _ _ _ _ => r

def Schema.type : Schema → Option String
  | .mk _ _ ty _ _ _ _ _ _ _ _ _ => ty

def Schema.pattern : Schema → Option String
  | .mk _ _ _ p _ _ _ _ _ _ _ _ => p

def Schema.format : Schema → Option String
  | .mk _ _ _ _ f _ _ _ _ _ _ _ => f

def Schema.anyOf : Schema → Option (List Schema)
  | .mk _ _ _ _ _ a _ _ _ _ _ _ => a

def Schema.allOf : Schema → Option (List Schema)
  | .mk _ _ _ _ _ _ a _ _ _ _ _ => a

def Schema.properties : Schema → Option (List (String × Schema))
  | .mk _ _ _ _ _ _ _ p _ _ _ _ => p

def Schema.required : Schema → Option (List String)
  | .mk _ _ _ _ _ _ _ _ r _ _ _ => r

def Schema.additionalProperties : Schema → Option (Bool ⊕ Schema)
  | .mk _ _ _ _ _ _ _ _ _ a _ _ => a

def Schema.items : Schema → Option Schema
  | .mk _ _ _ _ _ _ _ _ _ _ i _ => i

def Schema.defs : Schema → Option (List (String × Schema))
  | .mk _ _ _ _ _ _ _ _ _ _ _ d => d

/-- A schema node with every key absent (`{}` in JavaScript). -/
def emptySchema : Schema :=
  .mk none none none none none none none none none none none none

/-- `{ type: "string" }`: the implicit `$schema` property node
synthesized by generateParser. -/
def stringSchemaNode : Schema :=
  .mk none none (some "string") none none none none none none none none none

/-- JavaScript truthiness of an optional string field
(e.g. `if (schema.$ref)`): present and non-empty. -/
def truthyStr : Option String → Option String
  | some s => if s = "" then none else some s
  | none => none

/-! ## sizeOf facts used for termination of the structural traversals -/

theorem sizeOf_snd_lt_of_mem {p : String × Schema} {l : List (String × Schema)}
    (hp : p ∈ l) : sizeOf p.2 < sizeOf l := by
  have h1 := List.sizeOf_lt_of_mem hp
  have h2 : sizeOf p.2 < sizeOf p := by
    obtain ⟨a, b⟩ := p
    simp
  omega

theorem sizeOf_properties {s : Schema} {props : List (String × Schema)}
    (h : s.properties = some props) : sizeOf props < sizeOf s := by
  obtain ⟨t, r, ty, pa, f, ao, al, pr, rq, ad, it, d⟩ := s
  simp [Schema.properties] at h
  subst h
  simp
  omega

theorem sizeOf_properties_mem {s : Schema} {props : List (String × Schema)}
    {p : String × Schema} (h : s.properties = some props) (hp : p ∈ props) :
    sizeOf p.2 < sizeOf s := by
  have h1 := sizeOf_snd_lt_of_mem hp
  have h2 := sizeOf_properties h
  omega

theorem sizeOf_items {s : Schema} {it : Schema} (h : s.items = some it) :
    sizeOf it < sizeOf s := by
  obtain ⟨t, r, ty, pa, f, ao, al, pr, rq, ad, i, d⟩ := s
  simp [Schema.items] at h
  subst h
  simp
  omega

theorem sizeOf_anyOf {s : Schema} {l : List Schema} (h : s.anyOf = some l) :
    sizeOf l < sizeOf s := by
  obtain ⟨t, r, ty, pa, f, ao, al, pr, rq, ad, i, d⟩ := s
  simp [Schema.anyOf] at h
  subst h
  simp
  omega

theorem sizeOf_anyOf_mem {s : Schema} {l : List Schema} {b : Schema}
    (h : s.anyOf = some l) (hb : b ∈ l) : sizeOf b < sizeOf s := by
  have h1 := List.sizeOf_lt_of_mem hb
  have h2 := sizeOf_anyOf h
  omega

theorem sizeOf_allOf {s : Schema} {l : List Schema} (h : s.allOf = some l) :
    sizeOf l < sizeOf s := by
  obtain ⟨t, r, ty, pa, f, ao, al, pr, rq, ad, i, d⟩ := s
  simp [Schema.allOf] at h
  subst h
  simp
  omega

theorem sizeOf_additionalProperties {s : Schema} {sub : Schema}
    (h : s.additionalProperties = some (.inr sub)) : sizeOf sub < sizeOf s := by
  obtain ⟨t, r, ty, pa, f, ao, al, pr, rq, ad, i, d⟩ := s
  simp [Schema.additionalProperties] at h
  subst h
  simp
  omega

/-! ## src/utils.ts: GenerationError, the internal-reference grammar,
path evaluation, reference accumulation -/

/-- Errors that abort code generation. `generationError` models the
`GenerationError` class thrown deliberately by the compiler;
`jsError` models an ordinary JavaScript runtime exception (e.g. a
`TypeError` from reading a property of `undefined`), which is a
distinct kind. -/
inductive GenError where
  | generationError (msg : String)
  | jsError (msg : String)
deriving DecidableEq

/-- Character-list splitting on a separator character (the behavior of
`String.splitOn` with a one-character separator, written over the
character list so that it reduces definitionally). -/
def splitChars (sep : Char) : List Char → List Char → List String
  | [], acc => [String.mk acc.reverse]
  | c :: rest, acc =>
      if c = sep then String.mk acc.reverse :: splitChars sep rest []
      else splitChars sep rest (c :: acc)

/-- `s.split(sep)` for a one-character separator. -/
def strSplitOnChar (sep : Char) (s : String) : List String :=
  splitChars sep s.data []

/-- `s.startsWith(p)` over the character lists. -/
def strStartsWith (s p : String) : Bool :=
  p.data.isPrefixOf s.data

/-- `s.substring(1)` over the character list. -/
def strTail (s : String) : String :=
  String.mk s.data.tail

/-- JavaScript `Array.prototype.join(sep)`. -/
def joinSep (sep : String) : List String → String
  | [] => ""
  | [x] => x
  | x :: y :: rest => x ++ sep ++ joinSep sep (y :: rest)

def containsChars (needle : List Char) : List Char → Bool
  | [] => needle.isPrefixOf []
  | c :: rest => needle.isPrefixOf (c :: rest) || containsChars needle rest

/-- `hay` contains `needle` as a substring. -/
def strContains (hay needle : String) : Bool :=
  containsChars needle.data hay.data

/-- A character allowed in a reference path segment: `[$a-zA-Z0-9]`. -/
def isRefSegmentChar (c : Char) : Bool :=
  c = '$' || (('a' ≤ c && c ≤ 'z') || ('A' ≤ c && c ≤ 'Z')) || c.isDigit

/-- `internalReferencePattern = /^#((\/[$a-zA-Z0-9]+)*)$/` from
src/utils.ts, as a matcher returning the first capture group
(`matches[1]`), i.e. everything after the `#`, when the whole string
matches. -/
def internalReferenceMatchCapture (r : String) : Option String :=
  if strStartsWith r "#" then
    if strTail r = "" then some ""
    else if strStartsWith (strTail r) "/"
        && (strSplitOnChar '/' (strTail (strTail r))).all
            (fun seg => seg ≠ "" && seg.data.all isRefSegmentChar) then
      some (strTail r)
    else none
  else none

/-- src/utils.ts convertReferenceToPath: `matches[1]` is something like
"/$defs/myDef"; remove the first character and split on "/" (empty
capture, which is falsy, gives the empty path). -/
def convertReferenceToPath (capture : String) : List String :=
  if capture = "" then [] else strSplitOnChar '/' (strTail capture)

/-- A JavaScript value reachable by indexing into the root schema
document with arbitrary string keys, as evaluatePath does: an actual
schema node, a string-keyed map of schema nodes (a `properties` or
`$defs` object), an array of schema nodes (an `anyOf`/`allOf` array),
or some other primitive value (a metadata string, a boolean, the
`required` array). -/
inductive SchemaVal where
  | node (s : Schema)
  | strMap (m : List (String × Schema))
  | schemaList (l : List Schema)
  | prim

/-- Dynamic property access `value[key]` on a schema-document value,
returning `none` for `undefined`. On a schema node the modelled keys
are exactly the node's own JSON keys; on a map object the keys are its
entries; on an array the keys are canonical decimal indices; indexing
a primitive yields `undefined`. -/
def getKey : SchemaVal → String → Option SchemaVal
  | .node s, k =>
    match k with
    | "title" => s.title.map fun _ => .prim
    | "$ref" => s.ref.map fun _ => .prim
    | "type" => s.type.map fun _ => .prim
    | "pattern" => s.pattern.map fun _ => .prim
    | "format" => s.format.map fun _ => .prim
    | "anyOf" => s.anyOf.map .schemaList
    | "allOf" => s.allOf.map .schemaList
    | "properties" => s.properties.map .strMap
    | "$defs" => s.defs.map .strMap
    | "required" => s.required.map fun _ => .prim
    | "additionalProperties" =>
        s.additionalProperties.map fun ap =>
          match ap with
          | .inl _ => .prim
          | .inr sub => .node sub
    | "items" => s.items.map .node
    | _ => none
  | .strMap m, k => (m.lookup k).map .node
  | .schemaList l, k =>
      match k.toNat? with
      | some i => if toString i = k then (l.get? i).map .node else none
      | none => none
  | .prim, _ => none

/-- src/utils.ts evaluatePath: walk the path, indexing at each step.
Indexing `undefined` throws a TypeError (a plain JavaScript error, not
a GenerationError); reaching the end returns whatever value is there,
including `undefined`. -/
def evaluatePath : Option SchemaVal → List String → Except String (Option SchemaVal)
  | v, [] => .ok v
  | none, _ :: _ => .error "TypeError: Cannot read properties of undefined"
  | some sv, element :: rest => evaluatePath (getKey sv element) rest

/-- src/utils.ts evaluateReference: evaluatePath on the root, wrapping
any thrown error in a GenerationError. -/
def evaluateReference (root : Schema) (reference : String) (path : List String) :
    Except GenError (Option SchemaVal) :=
  match evaluatePath (some (.node root)) path with
  | .ok v => .ok v
  | .error e =>
      .error (.generationError
        ("Failed to evaluate reference " ++ reference ++ ": " ++ e))

/-- One entry of the reference registry (src/utils.ts `References`):
the generated name (assigned later), the reference path, and the
resolved target — which, like in the JavaScript, may be any value
reachable in the document, including `undefined`. -/
structure RefEntry where
  name : Option String
  path : List String
  schema : Option SchemaVal

/-- The reference registry, keyed by the `$ref` string, in insertion
order (a JavaScript object). -/
abbrev RefList := List (String × RefEntry)

def lookupRef (refs : RefList) (k : String) : Option RefEntry :=
  List.lookup k refs

/-- `path.join(".")`. -/
def joinDot (path : List String) : String :=
  String.intercalate "." path

/-- The visitor callback of src/utils.ts accumulateReferences: if the
node carries a (truthy) `$ref`, match it against the grammar (fatal
GenerationError on failure), resolve it against the root, and store
the registry entry under the reference string. -/
def accumulateCallback (root : Schema) (s : Schema) (path : List String)
    (refs : RefList) : Except GenError RefList :=
  match truthyStr s.ref with
  | none => .ok refs
  | some reference =>
    match internalReferenceMatchCapture reference with
    | none =>
        .error (.generationError
          ("Unsupported reference in " ++ joinDot path ++ ": " ++ reference))
    | some capture => do
        let referencePath := convertReferenceToPath capture
        let target ← evaluateReference root reference referencePath
        .ok (assocSet refs reference
          { name := none, path := referencePath, schema := target })

/-- Outcome of a fuel-indexed generation-time computation: a value, a
generation-time error, or exhausted structural fuel. The fuel is an
embedding device only: the `..._total` theorems below prove that
`sizeOf`-many steps always suffice, so `outOfFuel` is unreachable from
the wrappers (which supply that much fuel) — it is what makes the
generator's termination an explicit theorem. -/
inductive GenM (α : Type) where
  | ok (a : α)
  | error (e : GenError)
  | outOfFuel

def GenM.bind {α β : Type} : GenM α → (α → GenM β) → GenM β
  | .ok a, f => f a
  | .error e, _ => .error e
  | .outOfFuel, _ => .outOfFuel

instance : Monad GenM where
  pure := .ok
  bind := GenM.bind

def GenM.ofExcept {α : Type} : Except GenError α → GenM α
  | .ok a => .ok a
  | .error e => .error e

theorem GenM.bind_ne_outOfFuel {α β : Type} {x : GenM α} {f : α → GenM β}
    (hx : x ≠ .outOfFuel) (hf : ∀ a, f a ≠ .outOfFuel) :
    GenM.bind x f ≠ .outOfFuel := by
  cases x with
  | ok a => exact hf a
  | error e => simp [GenM.bind]
  | outOfFuel => exact absurd rfl hx

/-- Visit each property value in declared order (the `properties` loop
of src/utils.ts visitSchemaNodesRecursive), with the recursive visit
passed in as `accSub`. -/
def accPropsLoop (accSub : Schema → List String → RefList → GenM RefList) :
    List (String × Schema) → List String → RefList → GenM RefList
  | [], _, refs => .ok refs
  | (propertyName, property) :: rest, path, refs =>
      GenM.bind (accSub property (path ++ ["properties", propertyName]) refs)
        (fun refs => accPropsLoop accSub rest path refs)

/-- src/utils.ts visitSchemaNodesRecursive specialised to the
accumulateReferences callback: run the callback at the node, then
descend into `properties` values (object nodes) and `items` (array
nodes); an array node without `items` is a fatal GenerationError.
`anyOf`/`allOf` branches and `$defs` are not traversed. -/
def accumulateReferencesF (root : Schema) :
    Nat → Schema → List String → RefList → GenM RefList
  | 0, _, _, _ => .outOfFuel
  | fuel + 1, s, path, refs =>
    GenM.bind (GenM.ofExcept (accumulateCallback root s path refs)) fun refs =>
      if s.type = some "object" then
        match s.properties with
        | some props =>
            accPropsLoop
              (fun property pth r => accumulateReferencesF root fuel property pth r)
              props path refs
        | none => .ok refs
      else if s.type = some "array" then
        match s.items with
        | some it => accumulateReferencesF root fuel it (path ++ ["items"]) refs
        | none =>
            .error (.generationError
              ("No items specified on array: " ++ joinDot path))
      else .ok refs

theorem accPropsLoop_ne_outOfFuel
    {accSub : Schema → List String → RefList → GenM RefList}
    {props : List (String × Schema)}
    (h : ∀ p ∈ props, ∀ pth r, accSub p.2 pth r ≠ .outOfFuel) :
    ∀ path refs, accPropsLoop accSub props path refs ≠ .outOfFuel := by
  induction props with
  | nil => intro path refs; simp [accPropsLoop]
  | cons p rest ih =>
      intro path refs
      obtain ⟨propertyName, property⟩ := p
      simp only [accPropsLoop]
      apply GenM.bind_ne_outOfFuel
      · exact h (propertyName, property) (by simp) _ _
      · intro r
        exact ih (fun q hq pth r => h q (by simp [hq]) pth r) path r

/-- Termination of the reference-discovery traversal: `sizeOf`-many
steps always suffice (the traversal follows only structural
`properties`/`items` edges, never `$ref` edges). -/
theorem accumulateReferencesF_total (root : Schema) :
    ∀ fuel s path refs, sizeOf s < fuel →
      accumulateReferencesF root fuel s path refs ≠ .outOfFuel := by
  intro fuel
  induction fuel with
  | zero => intro s path refs h; omega
  | succ fuel ih =>
      intro s path refs hs
      simp only [accumulateReferencesF]
      apply GenM.bind_ne_outOfFuel
      · cases accumulateCallback root s path refs <;> simp [GenM.ofExcept]
      · intro refs'
        by_cases hobj : s.type = some "object"
        · rw [if_pos hobj]
          cases hp : s.properties with
          | none => simp
          | some props =>
            apply accPropsLoop_ne_outOfFuel
            intro p hp' pth r
            have h1 := sizeOf_properties_mem hp hp'
            exact ih p.2 pth r (by omega)
        · rw [if_neg hobj]
          by_cases harr : s.type = some "array"
          · rw [if_pos harr]
            cases hi : s.items with
            | none => simp
            | some it =>
              have h1 := sizeOf_items hi
              exact ih it (path ++ ["items"]) refs' (by omega)
          · rw [if_neg harr]
            simp

/-- src/utils.ts accumulateReferences. The `fuel` argument is the
structural-recursion budget of the embedding; by
`accumulateReferencesF_total`, any `fuel > sizeOf root` gives the
traversal's actual result (never `outOfFuel`). -/
def accumulateReferences (fuel : Nat) (root : Schema) : GenM RefList :=
  accumulateReferencesF root fuel root [] []


/-! ## The allOf shallow merge of src/generate-validator.ts (lines 52-60) -/

/-- One key of a JavaScript object spread `{ ...older, ...newer }`: the
newer object's value wins when that key is an own property (i.e. the
field is present). -/
def spreadKey {α : Type} (older newer : Option α) : Option α :=
  match newer with
  | some v => some v
  | none => older

/-- One step of the allOf merge loop
`const { ...rest } = item; subschema = { ...subschema, ...rest };` —
a shallow spread merge of every key. -/
def mergeTwo (subschema item : Schema) : Schema :=
  .mk (spreadKey subschema.title item.title)
      (spreadKey subschema.ref item.ref)
      (spreadKey subschema.type item.type)
      (spreadKey subschema.pattern item.pattern)
      (spreadKey subschema.format item.format)
      (spreadKey subschema.anyOf item.anyOf)
      (spreadKey subschema.allOf item.allOf)
      (spreadKey subschema.properties item.properties)
      (spreadKey subschema.required item.required)
      (spreadKey subschema.additionalProperties item.additionalProperties)
      (spreadKey subschema.items item.items)
      (spreadKey subschema.defs item.defs)

/-- The whole allOf merge: fold the branches over `{}`. -/
def mergeAllOf (items : List Schema) : Schema :=
  items.foldl mergeTwo emptySchema

theorem one_le_sizeOf_option {α : Type} [SizeOf α] (o : Option α) :
    1 ≤ sizeOf o := by
  cases o <;> simp

theorem sizeOf_spreadKey {α : Type} [SizeOf α] (older newer : Option α) :
    sizeOf (spreadKey older newer) + 1 ≤ sizeOf older + sizeOf newer := by
  cases older <;> cases newer <;> simp [spreadKey] <;> omega

theorem sizeOf_mergeTwo (a b : Schema) :
    sizeOf (mergeTwo a b) + 2 ≤ sizeOf a + sizeOf b := by
  obtain ⟨t₁, r₁, ty₁, pa₁, f₁, ao₁, al₁, pr₁, rq₁, ad₁, i₁, d₁⟩ := a
  obtain ⟨t₂, r₂, ty₂, pa₂, f₂, ao₂, al₂, pr₂, rq₂, ad₂, i₂, d₂⟩ := b
  have h1 := sizeOf_spreadKey t₁ t₂
  have h2 := sizeOf_spreadKey r₁ r₂
  have h3 := sizeOf_spreadKey ty₁ ty₂
  have h4 := sizeOf_spreadKey pa₁ pa₂
  have h5 := sizeOf_spreadKey f₁ f₂
  have h6 := sizeOf_spreadKey ao₁ ao₂
  have h7 := sizeOf_spreadKey al₁ al₂
  have h8 := sizeOf_spreadKey pr₁ pr₂
  have h9 := sizeOf_spreadKey rq₁ rq₂
  have h10 := sizeOf_spreadKey ad₁ ad₂
  have h11 := sizeOf_spreadKey i₁ i₂
  have h12 := sizeOf_spreadKey d₁ d₂
  simp [mergeTwo, Schema.title, Schema.ref, Schema.type, Schema.pattern,
    Schema.format, Schema.anyOf, Schema.allOf, Schema.properties,
    Schema.required, Schema.additionalProperties, Schema.items, Schema.defs]
  omega

theorem sizeOf_foldl_mergeTwo (l : List Schema) (init : Schema) :
    sizeOf (l.foldl mergeTwo init) + 1 ≤ sizeOf init + sizeOf l := by
  induction l generalizing init with
  | nil => simp
  | cons x xs ih =>
      have h1 := ih (mergeTwo init x)
      have h2 := sizeOf_mergeTwo init x
      simp only [List.foldl_cons]
      simp only [List.cons.sizeOf_spec]
      omega

theorem sizeOf_mergeAllOf {s : Schema} {l : List Schema}
    (h : s.allOf = some l) : sizeOf (mergeAllOf l) < sizeOf s := by
  have h1 := sizeOf_foldl_mergeTwo l emptySchema
  have h2 := sizeOf_allOf h
  have h3 : sizeOf emptySchema = 13 := by simp [emptySchema]
  -- sizeOf s counts the `some l` field plus at least 1 for each of the
  -- other 11 option fields and 1 for the constructor.
  have h4 : sizeOf l + 13 ≤ sizeOf s := by
    obtain ⟨t, r, ty, pa, f, ao, al, pr, rq, ad, i, d⟩ := s
    simp [Schema.allOf] at h
    subst h
    have g1 := one_le_sizeOf_option t
    have g2 := one_le_sizeOf_option r
    have g3 := one_le_sizeOf_option ty
    have g4 := one_le_sizeOf_option pa
    have g5 := one_le_sizeOf_option f
    have g6 := one_le_sizeOf_option ao
    have g7 := one_le_sizeOf_option pr
    have g8 := one_le_sizeOf_option rq
    have g9 := one_le_sizeOf_option ad
    have g10 := one_le_sizeOf_option i
    have g11 := one_le_sizeOf_option d
    simp
    omega
  simp [mergeAllOf]
  omega

/-! ## Name assignment (src/generate-validator.ts lines 210-224) -/

/-- Modelled from the spec: `capitalize` is imported by
src/generate-validator.ts from src/utils.ts, but its definition is not
among the source files provided under src/. Spec §4.2 describes the
canonical identifier form as capitalizing word boundaries, so
`capitalize` uppercases the first character of a word. -/
def capitalize (s : String) : String :=
  match s.data with
  | [] => ""
  | c :: rest => String.mk (c.toUpper :: rest)

/-- Modelled from the spec: `pascalCase` is imported by
src/generate-validator.ts from src/utils.ts, but its definition is not
among the source files provided under src/. Spec §4.2: "strip
whitespace, capitalize word boundaries — pascal case". -/
def pascalCase (s : String) : String :=
  String.join ((strSplitOnChar ' ' s).map capitalize)

/-- `reference.schema.title` as read by the naming loop: only an actual
schema node has a `title`. -/
def svTitle : SchemaVal → Option String
  | .node s => s.title
  | _ => none

/-- The naming loop of generateParser: for each registry entry in
insertion order, use the pascal-cased title if (truthy) present, else
the pascal-cased final path segment if the path is non-empty, else
`UntitledReference` with an incremented counter. Reading `.title` of an
`undefined` resolution target is a TypeError (a plain JavaScript
error). -/
def assignNames : RefList → Nat → Except GenError RefList
  | [], _ => .ok []
  | (k, e) :: rest, untitledReferenceCount =>
    match e.schema with
    | none =>
        .error (.jsError
          "TypeError: Cannot read properties of undefined (reading title)")
    | some sv =>
      match truthyStr (svTitle sv) with
      | some title => do
          let out ← assignNames rest untitledReferenceCount
          .ok ((k, { e with name := some (pascalCase title) }) :: out)
      | none =>
          if e.path ≠ [] then do
            let out ← assignNames rest untitledReferenceCount
            .ok ((k, { e with
              name := some (pascalCase ((e.path.getLast?).getD "")) }) :: out)
          else do
            let out ← assignNames rest (untitledReferenceCount + 1)
            .ok ((k, { e with
              name := some ("UntitledReference" ++
                toString (untitledReferenceCount + 1)) }) :: out)

/-! ## The validator/parser generator
(src/generate-validator.ts: generateRecursive, generateParser) -/

/-- Literal `{` (written escaped so that generated-code strings contain
no brace characters directly). -/
def lb : String := "\x7b"

/-- Literal `}`. -/
def rb : String := "\x7d"

/-- The error header of every generated failure message:
`JSON validation error at ${contextPath.length > 0 ? `"..."` : "root"}:`. -/
def mkErrorHeader (contextPath : List String) : String :=
  "JSON validation error at " ++
    (if contextPath.length > 0 then "\"" ++ joinDot contextPath ++ "\"" else "root")
    ++ ":"

/-- src/generate-validator.ts createVariablePrefix: camelCase-join the
value path (first element unchanged, later elements capitalized). -/
def createVariablePrefixText (path : List String) : String :=
  match path with
  | [] => ""
  | first :: rest => rest.foldl (fun pfx element => pfx ++ capitalize element) first

/-- String formats that are parsed into Date objects. -/
def dateFormats : List String := ["date", "date-time"]

theorem sizeOf_properties_getD_mem {s : Schema} {p : String × Schema}
    (hp : p ∈ s.properties.getD []) : sizeOf p.2 < sizeOf s := by
  cases hpp : s.properties with
  | none => rw [hpp] at hp; simp at hp
  | some props => exact sizeOf_properties_mem hpp (by rw [hpp] at hp; simpa using hp)

/-- Generated code for a scalar (`number`/`boolean`) node. -/
def scalarCode (ty : String) (v : String) (errorHeader : String) : String :=
  "if (typeof(" ++ v ++ ") !== \"" ++ ty ++ "\") " ++ lb ++ "\n" ++
  "throw `" ++ errorHeader ++ " expected " ++ ty ++
    ", but encountered $" ++ lb ++ "typeof(" ++ v ++ ")" ++ rb ++ "`;\n" ++
  rb ++ "\n\nreturn " ++ v ++ ";\n"

/-- Generated code for a generic (non-date) `string` node: type check,
then a pattern check when a (truthy) `pattern` is declared. -/
def genericStringCode (schema : Schema) (v : String) (errorHeader : String) :
    String :=
  "if (typeof(" ++ v ++ ") !== \"string\") " ++ lb ++ "\n" ++
  "throw `" ++ errorHeader ++ " expected string, but encountered $" ++ lb ++
  "typeof(" ++ v ++ ")" ++ rb ++ "`;\n" ++ rb ++
  (match truthyStr schema.pattern with
   | some p =>
       "if (!(/" ++ p ++ "/.test(" ++ v ++ "))) " ++ lb ++ "\n" ++
       "throw `" ++ errorHeader ++ " string did not match pattern /" ++ p ++
       "/: $" ++ lb ++ v ++ rb ++ "`;\n" ++ rb
   | none => "") ++
  "\nreturn " ++ v ++ ";\n"

/-- Generate the branch codes of a union, in declared order, with the
recursive generation passed in as `genSub`. -/
def genBranchCodes (genSub : Schema → GenM String) :
    List Schema → GenM (List String)
  | [] => .ok []
  | b :: rest =>
      GenM.bind (genSub b) fun c =>
        GenM.bind (genBranchCodes genSub rest) fun cs =>
          .ok (c :: cs)

/-- Generate the `case "<name>": ...` arms for an object's declared
properties, in declared order: each arm first bumps the required
counter (when a `required` list is declared and names this property),
then runs the property's generated code. -/
def genPropCases (genSub : Schema → String → GenM String)
    (required : Option (List String)) (pfx : String) :
    List (String × Schema) → GenM (List String)
  | [] => .ok []
  | (propertyName, property) :: rest =>
      GenM.bind (genSub property propertyName) fun sub =>
        GenM.bind (genPropCases genSub required pfx rest) fun cs =>
          .ok (("case \"" ++ propertyName ++ "\": " ++ lb ++ "\n" ++
            (match required with
             | some req =>
                 if req.contains propertyName then
                   "\n++" ++ pfx ++ "RequiredPropertyCount;"
                 else ""
             | none => "") ++ "\n" ++ sub ++ "\n" ++ rb ++ "\n") :: cs)

/-- src/generate-validator.ts generateRecursive: lower one schema node
to imperative check-and-transform JavaScript, returning the emitted
source text (or a generation-time error). The `$ref` case emits a call
to the target's helper and does not recurse; `anyOf` recurses into each
branch; `allOf` recurses once into the shallow merge of its branches;
`object` recurses into each declared property and the
`additionalProperties` node; `array` recurses into `items`. `fuel` is
the structural-recursion budget of the embedding; by
`generateRecursiveF_total` below, any `fuel > sizeOf schema` gives the
generator's actual result (never `outOfFuel`), which is the generator's
termination made explicit. -/
def generateRecursiveF (references : RefList) :
    Nat → Schema → List String → List String → Bool → GenM String
  | 0, _, _, _, _ => .outOfFuel
  | fuel + 1, schema, valuePath, contextPath, types =>
    let valuePathString := joinDot valuePath
    let errorHeader := mkErrorHeader contextPath
    match truthyStr schema.ref with
    | some r =>
        -- Reference: `return parse${references[schema.$ref].name!}(...);`
        -- (an unregistered reference makes the property read throw a
        -- TypeError; an unassigned name stringifies as "undefined")
        match lookupRef references r with
        | none =>
            .error (.jsError
              "TypeError: Cannot read properties of undefined (reading name)")
        | some entry =>
            .ok ("return parse" ++ entry.name.getD "undefined" ++ "(" ++
              valuePathString ++ ");\n")
    | none =>
    match schema.anyOf with
    | some branches =>
        -- Union
        let pfx := createVariablePrefixText valuePath
        GenM.bind
          (genBranchCodes
            (fun b => generateRecursiveF references fuel b valuePath
              (contextPath ++ ["anyOf"]) types) branches)
          fun codes =>
        .ok ("const " ++ pfx ++ "Errors = [];\n" ++
          String.intercalate "\n" (codes.map (fun c =>
            "try " ++ lb ++ "\n" ++ c ++ "\n" ++ rb ++ " catch (error) " ++ lb
            ++ "\n" ++ pfx ++ "Errors.push(error);\n" ++ rb)) ++
          "\nthrow `" ++ errorHeader ++
          " failed to match any of the specified types: $" ++ lb ++ pfx ++
          "Errors.join(\"\\n\\n\")" ++ rb ++ "`;\n")
    | none =>
    match schema.allOf with
    | some items =>
        -- Intersection: just merge the schema
        generateRecursiveF references fuel (mergeAllOf items) valuePath
          (contextPath ++ ["allOf"]) types
    | none =>
    if schema.type = some "number" then
      .ok (scalarCode "number" valuePathString errorHeader)
    else if schema.type = some "boolean" then
      .ok (scalarCode "boolean" valuePathString errorHeader)
    else if schema.type = some "string" then
      if (schema.format.map dateFormats.contains).getD false then
        -- Date string; allow Date to support parsed values
        .ok ("if (typeof(" ++ valuePathString ++
          ") !== \"string\" && !(" ++ valuePathString ++
          " instanceof Date)) " ++ lb ++ "\n" ++
          "throw `" ++ errorHeader ++
          " expected string or Date, but encountered $" ++ lb ++ "typeof(" ++
          valuePathString ++ ")" ++ rb ++ "`;\n" ++ rb ++
          "\n\nreturn new Date(" ++ valuePathString ++ ");\n")
      else
        .ok (genericStringCode schema valuePathString errorHeader)
    else if schema.type = some "object" then
      let pfx := createVariablePrefixText valuePath
      let lintComment := if types then "// deno-lint-ignore no-explicit-any\n" else ""
      -- Check type
      let checkCode :=
        "if (" ++ valuePathString ++ " === null) " ++ lb ++ "\n" ++
        "throw `" ++ errorHeader ++ " expected object, but encountered null`;\n" ++
        rb ++ " else if (typeof(" ++ valuePathString ++ ") !== \"object\") " ++
        lb ++ "\n" ++
        "throw `" ++ errorHeader ++ " expected object, but encountered $" ++ lb ++
        "typeof(" ++ valuePathString ++ ")" ++ rb ++ "`;\n" ++
        rb ++ " else if (Array.isArray(" ++ valuePathString ++ ")) " ++ lb ++
        "\n" ++
        "throw `" ++ errorHeader ++ " expected object, but encountered an array`;\n"
        ++ rb ++ "\n\n"
      let counterCode :=
        match schema.required with
        | some _ => "let " ++ pfx ++ "RequiredPropertyCount = 0;\n"
        | none => ""
      GenM.bind
        (genPropCases
          (fun property propertyName =>
            generateRecursiveF references fuel property [pfx ++ "Value"]
              (contextPath ++ [propertyName]) types)
          schema.required pfx (schema.properties.getD []))
        fun propCases =>
      GenM.bind
        (match schema.additionalProperties with
         | none => GenM.ok ""
         | some (.inl true) => GenM.ok ""
         | some (.inl false) =>
             GenM.ok ("default: " ++ lb ++ "\n" ++
               "throw `" ++ errorHeader ++ " encountered unexpected property: $"
               ++ lb ++ pfx ++ "Key" ++ rb ++ "`;\n" ++ rb)
         | some (.inr sub) =>
             GenM.bind
               (generateRecursiveF references fuel sub [pfx ++ "Value"]
                 (contextPath ++ ["additionalProperties"]) types)
               fun subCode =>
             GenM.ok ("default: " ++ lb ++ "\n" ++ subCode ++ "\n" ++ rb ++ "\n"))
        fun defaultCase =>
      let loopCode :=
        lintComment ++ "const " ++ pfx ++ "ResultObject" ++
        (if types then ": any" else "") ++ " = " ++ lb ++ rb ++ ";\n" ++
        lintComment ++ "for (const [" ++ pfx ++ "Key, " ++ pfx ++
        "Value] of Object.entries(" ++ valuePathString ++
        (if types then " as Record<string, any>" else "") ++ ")) " ++ lb ++ "\n"
        ++ pfx ++ "ResultObject[" ++ pfx ++ "Key] = (() => " ++ lb ++ "\n" ++
        "switch (" ++ pfx ++ "Key) " ++ lb ++ "\n" ++
        String.intercalate "\n" propCases ++ "\n" ++ defaultCase ++ "\n" ++
        rb ++ "\n" ++ rb ++ ")();\n" ++ rb ++ "\n"
      let requiredCheckCode :=
        match schema.required with
        | some required =>
            "\nif (" ++ pfx ++ "RequiredPropertyCount !== " ++
            toString required.length ++ ") " ++ lb ++ "\n" ++
            "throw `" ++ errorHeader ++
            " missing at least one required property from the list: [" ++
            String.intercalate ", " required ++ "]`;\n" ++ rb ++ "\n"
        | none => ""
      .ok (checkCode ++ counterCode ++ loopCode ++ requiredCheckCode ++
        "return " ++ pfx ++ "ResultObject;\n")
    else if schema.type = some "array" then
      match schema.items with
      | none =>
          .error (.generationError
            ("No item definition for array: " ++ joinDot contextPath))
      | some items =>
          let pfx := createVariablePrefixText valuePath
          GenM.bind
            (generateRecursiveF references fuel items [pfx ++ "Element"]
              (contextPath ++ ["items"]) types)
            fun sub =>
          .ok ("if (typeof(" ++ valuePathString ++
            ") !== \"object\" || !Array.isArray(" ++ valuePathString ++ ")) " ++
            lb ++ "\n" ++
            "throw `" ++ errorHeader ++ " expected array, but encountered $" ++
            lb ++ "typeof(" ++ valuePathString ++ ")" ++ rb ++ "`;\n" ++ rb ++
            "\n\nreturn " ++ valuePathString ++ ".map(" ++ pfx ++
            "Element => " ++ lb ++ "\n" ++ sub ++ "\n" ++ rb ++ ")\n")
    else
      .error (.generationError ("No type specified on " ++ joinDot contextPath))


/-- Replace the `properties` field. -/
def Schema.withProperties : Schema → Option (List (String × Schema)) → Schema
  | .mk t r ty pa f ao al _ rq ad i d, p => .mk t r ty pa f ao al p rq ad i d

/-- The root transformation of generateParser (src/generate-validator.ts
lines 192-206): when the root's `type` is "object", the code runs
`const { properties, ...rest } = schema;` followed by
`const { ...propertiesRest } = properties;` — object destructuring
performs RequireObjectCoercible on its right-hand side, so when the root
has no `properties` key this second line throws a TypeError and no root
is synthesized; otherwise the synthesized root is
`{ properties: { $schema: { type: "string" }, ...propertiesRest },
...rest }`. By object-spread semantics a
`$schema` property declared by the author overwrites the implicit one
(in place, keeping the first position). A non-object root is passed
through unchanged. -/
def synthRoot (schema : Schema) : Except GenError Schema :=
  if schema.type = some "object" then
    match schema.properties with
    | none =>
        .error (.jsError
          "TypeError: Cannot destructure properties as it is undefined")
    | some props =>
        .ok (schema.withProperties
          (some (props.foldl
            (fun m kv => assocSet m kv.1 kv.2) [("$schema", stringSchemaNode)])))
  else
    .ok schema

/-- The registry entry's resolved target as a schema node, as the
helper generator reads it: a non-node value has none of the keys the
generator inspects, so it behaves like `{}`. (An `undefined` target
never reaches this point: name assignment already threw.) -/
def svAsSchema : SchemaVal → Schema
  | .node s => s
  | _ => emptySchema

/-- The `validate` wrapper appended to every generated artifact:
`export function validate(json) { parse(json); }`. -/
def validateBlock (types : Bool) : String :=
  (if types then "// deno-lint-ignore no-explicit-any\n" else "") ++
  "export function validate(json" ++ (if types then ": any" else "") ++ ") " ++
  lb ++ "\n" ++ "parse(json);\n" ++ rb ++ "\n\n"

/-- Branch-code generation never runs out of fuel when no branch's
sub-generation does. -/
theorem genBranchCodes_ne_outOfFuel {genSub : Schema → GenM String}
    {l : List Schema} (h : ∀ b ∈ l, genSub b ≠ .outOfFuel) :
    genBranchCodes genSub l ≠ .outOfFuel := by
  induction l with
  | nil => simp [genBranchCodes]
  | cons b rest ih =>
      simp only [genBranchCodes]
      apply GenM.bind_ne_outOfFuel (h b (by simp))
      intro c
      apply GenM.bind_ne_outOfFuel (ih (fun x hx => h x (by simp [hx])))
      intro cs
      simp

theorem genPropCases_ne_outOfFuel {genSub : Schema → String → GenM String}
    {required : Option (List String)} {pfx : String}
    {props : List (String × Schema)}
    (h : ∀ p ∈ props, genSub p.2 p.1 ≠ .outOfFuel) :
    genPropCases genSub required pfx props ≠ .outOfFuel := by
  induction props with
  | nil => simp [genPropCases]
  | cons p rest ih =>
      obtain ⟨propertyName, property⟩ := p
      simp only [genPropCases]
      apply GenM.bind_ne_outOfFuel (h (propertyName, property) (by simp))
      intro c
      apply GenM.bind_ne_outOfFuel (ih (fun x hx => h x (by simp [hx])))
      intro cs
      simp

/-- Termination of the code generator: `sizeOf`-many steps always
suffice. In particular a `$ref` node never recurses (it is lowered to a
helper call), and the `allOf` merge is strictly smaller than the
`allOf` node itself, so code generation terminates on every schema —
including cyclic ones, whose cycles pass through `$ref`. -/
theorem generateRecursiveF_total (references : RefList) :
    ∀ fuel schema valuePath contextPath types, sizeOf schema < fuel →
      generateRecursiveF references fuel schema valuePath contextPath types ≠
        .outOfFuel := by
  intro fuel
  induction fuel with
  | zero => intro schema vp cp t h; omega
  | succ fuel ih =>
      intro schema vp cp t hs
      simp only [generateRecursiveF]
      cases htr : truthyStr schema.ref with
      | some r =>
          simp only
          cases lookupRef references r <;> simp
      | none =>
        simp only
        cases hao : schema.anyOf with
        | some branches =>
            simp only
            apply GenM.bind_ne_outOfFuel
            · apply genBranchCodes_ne_outOfFuel
              intro b hb
              have h1 := sizeOf_anyOf_mem hao hb
              exact ih b vp (cp ++ ["anyOf"]) t (by omega)
            · intro codes; simp
        | none =>
          simp only
          cases hal : schema.allOf with
          | some items =>
              simp only
              have h1 := sizeOf_mergeAllOf hal
              exact ih (mergeAllOf items) vp (cp ++ ["allOf"]) t (by omega)
          | none =>
            simp only
            by_cases hnum : schema.type = some "number"
            · simp [hnum]
            · rw [if_neg hnum]
              by_cases hbool : schema.type = some "boolean"
              · simp [hbool]
              · rw [if_neg hbool]
                by_cases hstr : schema.type = some "string"
                · rw [if_pos hstr]
                  split <;> simp
                · rw [if_neg hstr]
                  by_cases hobj : schema.type = some "object"
                  · rw [if_pos hobj]
                    apply GenM.bind_ne_outOfFuel
                    · apply genPropCases_ne_outOfFuel
                      intro p hp
                      have h1 := sizeOf_properties_getD_mem hp
                      exact ih p.2 _ _ t (by omega)
                    · intro propCases
                      apply GenM.bind_ne_outOfFuel
                      · cases had : schema.additionalProperties with
                        | none => simp
                        | some ap =>
                          cases ap with
                          | inl b => cases b <;> simp
                          | inr sub =>
                              simp only
                              apply GenM.bind_ne_outOfFuel
                              · have h1 := sizeOf_additionalProperties had
                                exact ih sub _ _ t (by omega)
                              · intro subCode; simp
                      · intro defaultCase; simp
                  · rw [if_neg hobj]
                    by_cases harr : schema.type = some "array"
                    · rw [if_pos harr]
                      cases hi : schema.items with
                      | none => simp
                      | some items =>
                          simp only
                          apply GenM.bind_ne_outOfFuel
                          · have h1 := sizeOf_items hi
                            exact ih items _ _ t (by omega)
                          · intro sub; simp
                    · rw [if_neg harr]
                      simp

def generateHelpers (fuel : Nat) (references : RefList) (types : Bool)
    (lintComment : String) : List (String × RefEntry) → String → GenM String
  | [], code => .ok code
  | kv :: rest, code =>
      let entry := kv.2
      let subschema := (entry.schema.map svAsSchema).getD emptySchema
      GenM.bind (generateRecursiveF references fuel subschema ["json"]
        entry.path types) fun body =>
      generateHelpers fuel references types lintComment rest
        (code ++ lintComment ++ "function parse" ++ entry.name.getD "undefined"
          ++ "(json" ++ (if types then ": any" else "") ++ ") " ++ lb ++ "\n" ++
          body ++ rb ++ "\n\n")

/-- src/generate-validator.ts generateParser, up to (but not including)
the final formatting pass: synthesize the root (which throws on an
object root without a `properties` key), accumulate references over the
synthesized root, assign names, emit one helper per registry entry (in
registry order), then the `parse` entry point (a call to the root's
helper when `#` was referenced, else inline code), then the `validate`
wrapper. `fuel` is the embedding's structural-recursion budget (see
`generateRecursiveF_total` and `accumulateReferencesF_total`). -/
def generateParserCode (fuel : Nat) (schema : Schema) (types : Bool)
    (rootTypeName : Option String) : GenM String :=
  GenM.bind (GenM.ofExcept (synthRoot schema)) fun root =>
  GenM.bind (accumulateReferences fuel root) fun references =>
  GenM.bind (GenM.ofExcept (assignNames references 0)) fun references =>
  let lintComment := if types then "// deno-lint-ignore no-explicit-any\n" else ""
  GenM.bind (generateHelpers fuel references types lintComment references "")
    fun helpers =>
  GenM.bind
    (match lookupRef references "#" with
     | some rootReference =>
         GenM.ok ("return parse" ++ rootReference.name.getD "undefined" ++
           "(json);\n")
     | none => generateRecursiveF references fuel root ["json"] [] types)
    fun parseBody =>
  let code := helpers ++ lintComment ++ "export function parse(json" ++
    (if types then ": any" else "") ++ ")" ++
    (match rootTypeName with | some n => ": " ++ n | none => "") ++ " " ++ lb ++
    "\n" ++ parseBody ++ rb ++ "\n\n"
  .ok (code ++ validateBlock types)

/-- Literal `{` as a character. -/
def braceOpenChar : Char := '\x7b'

/-- Literal `}` as a character. -/
def braceCloseChar : Char := '\x7d'

/-- src/utils.ts format: strip all indentation, then re-indent by
brace matching — a line beginning with `}` decreases the depth (floored
at zero) before it is emitted; a line ending with `{` increases the
depth for the following lines. -/
def format (code : String) : String :=
  let tabSize := 4
  let lines := (strSplitOnChar '\n' code).map
    (fun l => String.mk (l.data.dropWhile (fun c => c = ' ' || c = '\t')))
  let tab := String.join (List.replicate tabSize " ")
  (lines.foldl
    (fun (acc : String × Nat) line =>
      let depth := acc.2
      let depth :=
        if line.data.head? = some braceCloseChar then depth - 1
        else depth
      let str := acc.1 ++ String.join (List.replicate depth tab) ++ line ++ "\n"
      let depth :=
        if line.data.getLast? = some braceOpenChar then depth + 1
        else depth
      (str, depth))
    ("", 0)).1

/-- src/generate-validator.ts generateParser (the full pipeline,
including the final formatting pass). -/
def generateParser (fuel : Nat) (schema : Schema) (types : Bool)
    (rootTypeName : Option String) : GenM String :=
  GenM.bind (generateParserCode fuel schema types rootTypeName) fun code =>
    .ok (format code)

/-- src/generate-validator.ts generateJavaScriptParser. -/
def generateJavaScriptParser (fuel : Nat) (schema : Schema) : GenM String :=
  generateParser fuel schema false none

/-- src/generate-validator.ts generateTypeScriptParser. -/
def generateTypeScriptParser (fuel : Nat) (schema : Schema)
    (rootTypeName : Option String) : GenM String :=
  generateParser fuel schema true rootTypeName

/-! ## Runtime semantics of the generated code

A step-indexed interpreter with exactly one case per code template of
generateRecursive: running the interpreter on a schema node is running
the JavaScript that generateRecursive emits for that node. -/

/-- Outcome of running generated code on a value: a returned value, a
thrown error (the generated code throws message strings), or an
exhausted step index (`spin` models non-termination of the generated
code, which the step count bounds). -/
inductive ROut where
  | ok (v : Js)
  | err (msg : String)
  | spin

/-- The union loop: try each branch in order against the same value
inside `try`/`catch` (`runBranch` is the branch's generated code
applied to the value), pushing caught errors; the first success returns
from the enclosing helper; when no branch succeeded, throw the
aggregate message joining every caught error with blank lines. -/
def runAnyOfLoop (runBranch : Schema → ROut) (errorHeader : String) :
    List Schema → List String → ROut
  | [], errs =>
      .err (errorHeader ++ " failed to match any of the specified types: " ++
        joinSep "\n\n" errs)
  | b :: rest, errs =>
      match runBranch b with
      | .ok r => .ok r
      | .err e => runAnyOfLoop runBranch errorHeader rest (errs ++ [e])
      | .spin => .spin

/-- The object loop
`for (const [key, value] of Object.entries(...)) ... result[key] = (() => ... switch (key) ...)();`:
dispatch each present key; a key matching a declared property case
first bumps the required counter (when a `required` list is declared
and names this property) and then parses the value; an undeclared key
falls to the default case — fatal when `additionalProperties` is
`false`, parsed against the subschema when one is declared, and left to
the switch fall-through (the IIFE returns `undefined`) when
`additionalProperties` is `true` or absent. After the loop, when a
`required` list is declared, fail unless the counter equals its length;
otherwise return the rebuilt result object. `runSub` is the recursive
run of a subschema's generated code at a context path. -/
def runObjectLoop (runSub : Schema → List String → Js → ROut)
    (props : List (String × Schema)) (required : Option (List String))
    (addl : Option (Bool ⊕ Schema)) (ctx : List String) (errorHeader : String) :
    List (String × Js) → Nat → List (String × Js) → ROut
  | [], count, result =>
      match required with
      | some req =>
          if count ≠ req.length then
            .err (errorHeader ++
              " missing at least one required property from the list: [" ++
              String.intercalate ", " req ++ "]")
          else .ok (.obj result)
      | none => .ok (.obj result)
  | (key, value) :: rest, count, result =>
      match props.lookup key with
      | some property =>
          let count :=
            match required with
            | some req => if req.contains key then count + 1 else count
            | none => count
          match runSub property (ctx ++ [key]) value with
          | .ok r =>
              runObjectLoop runSub props required addl ctx errorHeader rest
                count (assocSet result key r)
          | .err e => .err e
          | .spin => .spin
      | none =>
          match addl with
          | some (.inl false) =>
              .err (errorHeader ++ " encountered unexpected property: " ++ key)
          | some (.inr sub) =>
              match runSub sub (ctx ++ ["additionalProperties"]) value with
              | .ok r =>
                  runObjectLoop runSub props required addl ctx errorHeader rest
                    count (assocSet result key r)
              | .err e => .err e
              | .spin => .spin
          | _ =>
              -- additionalProperties true or absent: no case matches and
              -- the switch has no default, so the IIFE returns undefined
              runObjectLoop runSub props required addl ctx errorHeader rest
                count (assocSet result key .undef)

/-- The array loop `return value.map(element => ...)`: parse each
element against `items` in order, collecting the results. -/
def runArrayLoop (runSub : Schema → List String → Js → ROut) (items : Schema)
    (ctx : List String) : List Js → List Js → ROut
  | [], acc => .ok (.arr acc)
  | x :: rest, acc =>
      match runSub items (ctx ++ ["items"]) x with
      | .ok r => runArrayLoop runSub items ctx rest (acc ++ [r])
      | .err e => .err e
      | .spin => .spin

/-- Run the code generated for one schema node on value `v`.
`rt pat s` is the host regular-expression oracle `/pat/.test(s)`;
`ctx` is the context path baked into the node's error messages; `fuel`
is the step index (`spin` when exhausted — the generated code really
can recurse forever through reference helpers on values it never
rejects). The reference case calls the target's helper, whose body was
generated from the registry entry's resolved schema with the entry's
path as its context. -/
def runSchema (rt : String → String → Bool) (references : RefList) :
    Nat → Schema → List String → Js → ROut
  | 0, _, _, _ => .spin
  | fuel + 1, schema, ctx, v =>
    let errorHeader := mkErrorHeader ctx
    match truthyStr schema.ref with
    | some r =>
        match lookupRef references r with
        | none => .err "ReferenceError: helper is not defined"
        | some entry =>
            runSchema rt references fuel
              ((entry.schema.map svAsSchema).getD emptySchema) entry.path v
    | none =>
    match schema.anyOf with
    | some branches =>
        runAnyOfLoop
          (fun b => runSchema rt references fuel b (ctx ++ ["anyOf"]) v)
          errorHeader branches []
    | none =>
    match schema.allOf with
    | some items =>
        runSchema rt references fuel (mergeAllOf items) (ctx ++ ["allOf"]) v
    | none =>
    if schema.type = some "number" then
      match v with
      | .num n => .ok (.num n)
      | _ =>
          .err (errorHeader ++ " expected number, but encountered " ++
            v.typeofStr)
    else if schema.type = some "boolean" then
      match v with
      | .bool b => .ok (.bool b)
      | _ =>
          .err (errorHeader ++ " expected boolean, but encountered " ++
            v.typeofStr)
    else if schema.type = some "string" then
      if (schema.format.map dateFormats.contains).getD false then
        -- date / date-time: accept a string or an already-parsed Date,
        -- return `new Date(...)`
        if v.typeofStr = "string" || v.isDate then .ok (jsNewDate v)
        else
          .err (errorHeader ++ " expected string or Date, but encountered "
            ++ v.typeofStr)
      else
        match v with
        | .str sv =>
            match truthyStr schema.pattern with
            | some p =>
                if rt p sv then .ok (.str sv)
                else
                  .err (errorHeader ++ " string did not match pattern /" ++
                    p ++ "/: " ++ sv)
            | none => .ok (.str sv)
        | _ =>
            .err (errorHeader ++ " expected string, but encountered " ++
              v.typeofStr)
    else if schema.type = some "object" then
      match v with
      | .null => .err (errorHeader ++ " expected object, but encountered null")
      | _ =>
        if v.typeofStr ≠ "object" then
          .err (errorHeader ++ " expected object, but encountered " ++
            v.typeofStr)
        else if v.isArray then
          .err (errorHeader ++ " expected object, but encountered an array")
        else
          runObjectLoop
            (fun s c w => runSchema rt references fuel s c w)
            (schema.properties.getD []) schema.required
            schema.additionalProperties ctx errorHeader (jsEntries v) 0 []
    else if schema.type = some "array" then
      match schema.items with
      | some items =>
          if v.typeofStr ≠ "object" || !v.isArray then
            .err (errorHeader ++ " expected array, but encountered " ++
              v.typeofStr)
          else
            runArrayLoop (fun s c w => runSchema rt references fuel s c w)
              items ctx (match v with | .arr elems => elems | _ => []) []
      | none =>
          -- generation already failed on such a node; no artifact exists
          .err "unreachable: generation rejects an array without items"
    else
      -- generation already failed on such a node; no artifact exists
      .err "unreachable: generation rejects a node with no type"

/-- The program emitted by generateParser, run through its `parse`
entry point: when `#` was referenced the entry point calls the root
helper, else it inlines the root's code. Generation-time failure means
no artifact exists; it is reported in the `GenM` layer. `genFuel` is
the generation-side structural budget, `fuel` the runtime step
index. -/
def runParseProgram (rt : String → String → Bool) (genFuel : Nat)
    (schema : Schema) (fuel : Nat) (v : Js) : GenM ROut :=
  GenM.bind (GenM.ofExcept (synthRoot schema)) fun root =>
  GenM.bind (accumulateReferences genFuel root) fun references =>
  GenM.bind (GenM.ofExcept (assignNames references 0)) fun references =>
  match lookupRef references "#" with
  | some rootReference =>
      .ok (runSchema rt references fuel
        ((rootReference.schema.map svAsSchema).getD emptySchema)
        rootReference.path v)
  | none => .ok (runSchema rt references fuel root [] v)

/-- The program's `validate` entry point: call `parse` and discard its
result (a JavaScript function without `return` returns `undefined`). -/
def runValidateProgram (rt : String → String → Bool) (genFuel : Nat)
    (schema : Schema) (fuel : Nat) (v : Js) : GenM ROut :=
  GenM.bind (runParseProgram rt genFuel schema fuel v)
    (fun out => match out with | .ok _ => .ok (.ok .undef) | e => .ok e)

/-! ## General lemmas about the generated code's runtime behavior -/

/-- Required-property counting: whenever the object loop returns a
value, the counter accumulated over all iterated entries — one bump per
entry whose key is dispatched by a declared-property case and named in
the `required` list — equals the `required` list's length. (Read
contrapositively: a completed iteration whose counter differs from that
length never returns a value.) -/
theorem runObjectLoop_ok_required_count
    (runSub : Schema → List String → Js → ROut)
    (props : List (String × Schema)) (req : List String)
    (addl : Option (Bool ⊕ Schema)) (ctx : List String) (eh : String) :
    ∀ entries count result r,
      runObjectLoop runSub props (some req) addl ctx eh entries count result
        = .ok r →
      count + entries.countP
        (fun kv => (props.lookup kv.1).isSome && req.contains kv.1)
        = req.length := by
  intro entries
  induction entries with
  | nil =>
      intro count result r h
      simp only [runObjectLoop] at h
      by_cases hc : count = req.length
      · simp [List.countP_nil, hc]
      · simp [hc] at h
  | cons kv rest ih =>
      intro count result r h
      obtain ⟨key, value⟩ := kv
      simp only [runObjectLoop] at h
      rw [List.countP_cons]
      cases hl : props.lookup key with
      | some property =>
          rw [hl] at h
          simp only at h
          cases hr : runSub property (ctx ++ [key]) value with
          | ok rv =>
              rw [hr] at h
              simp only at h
              have hrec := ih _ _ _ h
              cases hreq : req.contains key with
              | true =>
                  rw [hreq] at hrec
                  simp only [if_true] at hrec
                  simp only [hl, hreq, Option.isSome_some, Bool.true_and,
                    if_true]
                  omega
              | false =>
                  rw [hreq] at hrec
                  simp only [Bool.false_eq_true, if_false] at hrec
                  simp only [hl, hreq, Option.isSome_some, Bool.true_and,
                    Bool.false_eq_true, if_false]
                  omega
          | err e => rw [hr] at h; simp at h
          | spin => rw [hr] at h; simp at h
      | none =>
          rw [hl] at h
          simp only [hl, Option.isSome_none, Bool.false_and,
            Bool.false_eq_true, if_false]
          rcases addl with _ | b | sub
          · simp only at h
            have hrec := ih _ _ _ h
            omega
          · cases b with
            | true =>
                simp only at h
                have hrec := ih _ _ _ h
                omega
            | false => simp at h
          · simp only at h
            cases hr : runSub sub (ctx ++ ["additionalProperties"]) value with
            | ok rv =>
                rw [hr] at h
                simp only at h
                have hrec := ih _ _ _ h
                omega
            | err e => rw [hr] at h; simp at h
            | spin => rw [hr] at h; simp at h

/-- First-match-wins in the union loop: once every earlier branch has
thrown and some branch returns, the loop returns that branch's value —
for every list of later branches, which are therefore never consulted. -/
theorem runAnyOfLoop_first_success (runBranch : Schema → ROut) (eh : String)
    (pre : List Schema) (b : Schema) (post : List Schema) (r : Js)
    (hpre : ∀ p ∈ pre, ∃ e, runBranch p = .err e) (hb : runBranch b = .ok r) :
    ∀ errs, runAnyOfLoop runBranch eh (pre ++ b :: post) errs = .ok r := by
  induction pre with
  | nil => intro errs; simp [runAnyOfLoop, hb]
  | cons p rest ih =>
      intro errs
      obtain ⟨e, he⟩ := hpre p (by simp)
      simp only [List.cons_append, runAnyOfLoop, he]
      exact ih (fun q hq => hpre q (by simp [hq])) _

/-- When every branch throws, the union loop throws one aggregate
message joining every branch's error (the already-caught `errs` first). -/
theorem runAnyOfLoop_all_fail (runBranch : Schema → ROut) (eh : String) :
    ∀ (l : List Schema) (msgs : List String),
      List.Forall₂ (fun s e => runBranch s = .err e) l msgs →
      ∀ errs, runAnyOfLoop runBranch eh l errs =
        .err (eh ++ " failed to match any of the specified types: " ++
          joinSep "\n\n" (errs ++ msgs)) := by
  intro l msgs h
  induction h with
  | nil => intro errs; simp [runAnyOfLoop]
  | cons hrel hrest ih =>
      intro errs
      simp only [runAnyOfLoop, hrel]
      rw [ih (errs ++ [_])]
      simp

/-- Every joined element is a substring of the join (with explicit
prefix and suffix witnesses). -/
theorem joinSep_mem_decomp (sep : String) :
    ∀ (msgs : List String) (m : String), m ∈ msgs →
      ∃ a b : String, joinSep sep msgs = a ++ (m ++ b) := by
  intro msgs
  induction msgs with
  | nil => intro m hm; simp at hm
  | cons x rest ih =>
      intro m hm
      cases rest with
      | nil =>
          simp at hm
          subst hm
          exact ⟨"", "", by simp [joinSep]⟩
      | cons y rest' =>
          rcases List.mem_cons.mp hm with hx | hmem
          · subst hx
            exact ⟨"", sep ++ joinSep sep (y :: rest'),
              by simp [joinSep, String.append_assoc]⟩
          · obtain ⟨a, b, hab⟩ := ih m hmem
            exact ⟨x ++ sep ++ a, b,
              by simp [joinSep, hab, String.append_assoc]⟩

/-! ## General lemmas about the object-spread property set -/

/-- Looking a key up after a JavaScript property assignment. -/
theorem lookup_assocSet {α : Type} (m : List (String × α)) (k : String)
    (v : α) (k' : String) :
    (assocSet m k v).lookup k' = if k' = k then some v else m.lookup k' := by
  induction m with
  | nil =>
      by_cases h : k' = k
      · subst h; simp [assocSet, List.lookup]
      · have hbeq : (k' == k) = false := by simp [h]
        simp [assocSet, List.lookup, hbeq, h]
  | cons kv rest ih =>
      obtain ⟨k₀, v₀⟩ := kv
      by_cases h0 : k₀ = k
      · subst h0
        by_cases h : k' = k₀
        · subst h; simp [assocSet, List.lookup]
        · have hbeq : (k' == k₀) = false := by simp [h]
          simp [assocSet, List.lookup, hbeq, h]
      · by_cases h : k' = k₀
        · subst h
          have hne : ¬ k' = k := fun hk => h0 (hk ▸ rfl)
          simp [assocSet, h0, List.lookup, hne]
        · have hbeq : (k' == k₀) = false := by simp [h]
          simp [assocSet, h0, List.lookup, hbeq, ih]

/-- Lookup over concatenation: the earlier list wins. -/
theorem lookup_append {α : Type} (a b : List (String × α)) (k : String) :
    (a ++ b).lookup k = spreadKey (b.lookup k) (a.lookup k) := by
  induction a with
  | nil => simp [spreadKey, List.lookup]
  | cons kv rest ih =>
      obtain ⟨k₀, v₀⟩ := kv
      by_cases h : k = k₀
      · subst h; simp [List.lookup, spreadKey]
      · have hbeq : (k == k₀) = false := by simp [h]
        simp [List.lookup, hbeq, spreadKey, ih]

/-- Folding JavaScript property assignments over an initial object: a
key's final value is its last assigned value, else its initial one. -/
theorem lookup_foldl_assocSet {α : Type} (l : List (String × α)) :
    ∀ (init : List (String × α)) (k : String),
      ((l.foldl (fun m kv => assocSet m kv.1 kv.2) init).lookup k)
        = spreadKey (init.lookup k) (l.reverse.lookup k) := by
  induction l with
  | nil => intro init k; simp [spreadKey]
  | cons kv rest ih =>
      intro init k
      obtain ⟨k₀, v₀⟩ := kv
      simp only [List.foldl_cons, List.reverse_cons]
      rw [ih, lookup_append, lookup_assocSet]
      by_cases h : k = k₀
      · subst h
        cases rest.reverse.lookup k <;> simp [spreadKey, List.lookup]
      · have hbeq : (k == k₀) = false := by simp [h]
        cases rest.reverse.lookup k <;> simp [spreadKey, List.lookup, h, hbeq]

/-- The declared property set of a schema, as the generator reads it
(`schema.properties ?? {}`), looked up by name. -/
def lookupProp (s : Schema) (k : String) : Option Schema :=
  (s.properties.getD []).lookup k

/-- The effective root `$schema` property after a successful
generateParser root transformation: the author's `$schema` declaration
(its last declaration, by spread semantics) when present, else the
implicit `{ type: "string" }` node. -/
theorem synthRoot_schema_prop (s root : Schema) (h : s.type = some "object")
    (hok : synthRoot s = .ok root) :
    lookupProp root "$schema" =
      some ((((s.properties.getD []).reverse).lookup "$schema").getD
        stringSchemaNode) := by
  unfold synthRoot at hok
  rw [if_pos h] at hok
  cases hp : s.properties with
  | none => rw [hp] at hok; cases hok
  | some props =>
      rw [hp] at hok
      simp only [Except.ok.injEq] at hok
      subst hok
      unfold lookupProp
      have hwp : ∀ (p : Option (List (String × Schema))),
          (s.withProperties p).properties = p := by
        intro p
        obtain ⟨t, r, ty, pa, f, ao, al, pr, rq, ad, i, d⟩ := s
        simp [Schema.withProperties, Schema.properties]
      rw [hwp]
      simp only [Option.getD_some]
      rw [lookup_foldl_assocSet]
      have : (([("$schema", stringSchemaNode)] : List (String × Schema)).lookup
          "$schema") = some stringSchemaNode := by simp [List.lookup]
      rw [this]
      cases props.reverse.lookup "$schema" <;> simp [spreadKey]

/-! ## Concrete schemas and oracles used by the claims

The schemas mirror the repository's own test suite (src/test.ts and the
parser test file). -/

/-- `{ type: "number" }`. -/
def numberNode : Schema :=
  .mk none none (some "number") none none none none none none none none none

/-- `{ type: "boolean" }`. -/
def booleanNode : Schema :=
  .mk none none (some "boolean") none none none none none none none none none

/-- An object node with the given properties, `required` list and
`additionalProperties`. -/
def objectNode (props : List (String × Schema)) (required : Option (List String))
    (addl : Option (Bool ⊕ Schema)) : Schema :=
  .mk none none (some "object") none none none none (some props) required addl
    none none

/-- A pure reference node. -/
def refNode (r : String) : Schema :=
  .mk none (some r) none none none none none none none none none none

/-- `{ type: "string", pattern: p }`. -/
def patternStringNode (p : String) : Schema :=
  .mk none none (some "string") (some p) none none none none none none none none

/-- An `anyOf` node. -/
def anyOfNode (l : List Schema) : Schema :=
  .mk none none none none none (some l) none none none none none none

/-- An `allOf` node. -/
def allOfNode (l : List Schema) : Schema :=
  .mk none none none none none none (some l) none none none none none

/-- A regular-expression oracle for programs whose generated code
contains no pattern test. -/
def rtFalse : String → String → Bool := fun _ _ => false

/-- The host regular expression `/^this exactly$/` evaluated on the
strings the pattern tests of this development use: only the literal
"this exactly" matches. -/
def rtThisExactly : String → String → Bool :=
  fun p v => p = "^this exactly$" && v = "this exactly"

/-- The "Non-nested object" schema of the test suite: optional
`str`/`num`, required `bool`. -/
def schemaNonNestedObject : Schema :=
  objectNode [("str", stringSchemaNode), ("num", numberNode), ("bool", booleanNode)]
    (some ["bool"]) none

/-- `anyOf: [{type: "string"}, {type: "number"}]`. -/
def schemaUnion : Schema := anyOfNode [stringSchemaNode, numberNode]

/-- The "Ignore $schema if not specified" schema: `additionalProperties:
false`, no declared `$schema`. -/
def schemaIgnoreSchema : Schema :=
  objectNode [("str", stringSchemaNode)] (some ["str"]) (some (.inl false))

/-- The "Validate $schema if specified" schema: `$schema` declared with
a pattern. -/
def schemaValidateSchema : Schema :=
  objectNode [("$schema", patternStringNode "^this exactly$"),
    ("str", stringSchemaNode)] (some ["$schema", "str"]) (some (.inl false))

/-- `allOf` of two object branches, each declaring its own `required`. -/
def schemaAllOfTwo : Schema :=
  allOfNode [objectNode [("a", numberNode)] (some ["a"]) none,
    objectNode [("b", numberNode)] (some ["b"]) none]

/-- Two untitled references whose paths end in the same segment `foo`. -/
def schemaTwoFoos : Schema :=
  objectNode [("foo", numberNode),
    ("bar", objectNode [("foo", stringSchemaNode)] none none),
    ("x", refNode "#/properties/foo"),
    ("y", refNode "#/properties/bar/properties/foo")] none none

/-- A reference whose final path segment names nothing. -/
def schemaMissingFinal : Schema :=
  objectNode [("x", refNode "#/nope")] none none

/-- A reference whose missing segment is not the final one. -/
def schemaMissingDeep : Schema :=
  objectNode [("x", refNode "#/nope/deeper")] none none

/-- A root node carrying `$ref: ""`. -/
def schemaEmptyRef : Schema :=
  .mk none (some "") none none none none none none none none none none

/-- A reference that does not match the internal-reference grammar. -/
def schemaBadRef : Schema :=
  objectNode [("x", refNode "http://example.com/schema")] none none

/-- `{ type: "object" }` with no `properties` key at all and open
`additionalProperties`. -/
def schemaOpenObject : Schema :=
  .mk none none (some "object") none none none none none none none none none

/-- `{ type: "object", properties: { b: { type: "number" } } }`: one
declared property, no `required`, open `additionalProperties`. -/
def schemaOpenWithProp : Schema :=
  objectNode [("b", numberNode)] none none

/-- An object schema whose property refers back to the root `#`. -/
def schemaSelfRef : Schema :=
  objectNode [("next", refNode "#")] none none

/-! ## The claims -/

/-- C1: for a generated validator/parser compiled from an object schema
with a `required` list, required-property enforcement is by counting: a
counter is incremented once per input key that is both present and
listed in `required` (each such key is dispatched by a declared
property case, since `required` names declared properties), and the
check fails exactly when the counter differs from the `required` list's
length — whenever the generated code returns a value the count equals
the length, and (contrapositively) it never returns a value otherwise.
Concretely, for the schema with properties str/num/bool and required
["bool"], the generated validate accepts `{bool: true}` and
`{bool: true, str: "hi"}`, rejects `{}`, rejects `{str: "hi", num: 0}`
(both with the counting failure naming the full required list), and
rejects `{bool: "true"}`. -/
theorem claim_C1_required_counting :
    (∀ (rt : String → String → Bool) (refs : RefList) (fuel : Nat)
        (s : Schema) (ctx : List String) (fields : List (String × Js))
        (r : Js) (req : List String),
      truthyStr s.ref = none → s.anyOf = none → s.allOf = none →
      s.type = some "object" → s.required = some req →
      (∀ k ∈ req, (lookupProp s k).isSome) →
      runSchema rt refs (fuel + 1) s ctx (.obj fields) = .ok r →
      fields.countP (fun kv => req.contains kv.1) = req.length) ∧
    runValidateProgram rtFalse 50 schemaNonNestedObject 20
      (.obj [("bool", .bool true)]) = .ok (.ok .undef) ∧
    runValidateProgram rtFalse 50 schemaNonNestedObject 20
      (.obj [("bool", .bool true), ("str", .str "hi")]) = .ok (.ok .undef) ∧
    runValidateProgram rtFalse 50 schemaNonNestedObject 20 (.obj []) =
      .ok (.err ("JSON validation error at root: missing at least one " ++
        "required property from the list: [bool]")) ∧
    runValidateProgram rtFalse 50 schemaNonNestedObject 20
      (.obj [("str", .str "hi"), ("num", .num 0)]) =
      .ok (.err ("JSON validation error at root: missing at least one " ++
        "required property from the list: [bool]")) ∧
    runValidateProgram rtFalse 50 schemaNonNestedObject 20
      (.obj [("bool", .str "true")]) =
      .ok (.err
        "JSON validation error at \"bool\": expected boolean, but encountered string") := by
  refine ⟨?_, by rfl, by rfl, by rfl, by rfl, by rfl⟩
  intro rt refs fuel s ctx fields r req href hao hal hty hreq hvalid hrun
  simp only [runSchema, href, hao, hal, hty] at hrun
  simp [Js.typeofStr, Js.isArray, jsEntries, hreq] at hrun
  have hcount := runObjectLoop_ok_required_count _ _ _ _ _ _ _ _ _ _ hrun
  rw [← hcount]
  simp only [Nat.zero_add]
  apply List.countP_congr
  intro kv hkv
  cases hc : req.contains kv.1 with
  | true =>
      have hk : kv.1 ∈ req := by simpa using hc
      have := hvalid kv.1 hk
      unfold lookupProp at this
      simp [this, hc]
  | false => simp [hc]

/-- Witness for C1: the counting equation, instantiated at the
test-suite schema and the accepted input `{bool: true}`. -/
theorem claim_C1_required_counting_witness :
    List.countP (fun kv => (["bool"] : List String).contains kv.1)
      [("bool", Js.bool true)] = (["bool"] : List String).length :=
  claim_C1_required_counting.1 rtFalse [] 19 schemaNonNestedObject []
    [("bool", Js.bool true)] (.obj [("bool", .bool true)]) ["bool"]
    rfl rfl rfl rfl rfl (by decide) (by rfl)

/-- C2: for a generated parser compiled from an `anyOf` schema,
branches are attempted in declared order against the same value; the
transformed result of the first succeeding branch is returned and later
branches are never evaluated (the result is the same for every list of
later branches); and if every branch fails, the parser raises a single
error naming the union location whose message contains every branch's
failure message (they are joined with blank lines). Concretely, for
`anyOf: [string, number]`, a boolean produces one error containing both
branch messages, and a number matching only the second branch parses to
itself. -/
theorem claim_C2_union_first_match_and_aggregation :
    (∀ (rt : String → String → Bool) (refs : RefList) (fuel : Nat)
        (s : Schema) (ctx : List String) (v : Js) (pre : List Schema)
        (b : Schema) (post : List Schema) (r : Js),
      truthyStr s.ref = none → s.anyOf = some (pre ++ b :: post) →
      (∀ p ∈ pre, ∃ e, runSchema rt refs fuel p (ctx ++ ["anyOf"]) v = .err e) →
      runSchema rt refs fuel b (ctx ++ ["anyOf"]) v = .ok r →
      runSchema rt refs (fuel + 1) s ctx v = .ok r) ∧
    (∀ (rt : String → String → Bool) (refs : RefList) (fuel : Nat)
        (s : Schema) (ctx : List String) (v : Js) (branches : List Schema)
        (msgs : List String),
      truthyStr s.ref = none → s.anyOf = some branches →
      List.Forall₂
        (fun br e => runSchema rt refs fuel br (ctx ++ ["anyOf"]) v = .err e)
        branches msgs →
      runSchema rt refs (fuel + 1) s ctx v =
        .err (mkErrorHeader ctx ++
          " failed to match any of the specified types: " ++
          joinSep "\n\n" msgs) ∧
      ∀ m ∈ msgs, ∃ a b : String,
        mkErrorHeader ctx ++ " failed to match any of the specified types: "
          ++ joinSep "\n\n" msgs = a ++ (m ++ b)) ∧
    runParseProgram rtFalse 50 schemaUnion 20 (.bool true) =
      .ok (.err ("JSON validation error at root: failed to match any of the "
        ++ "specified types: JSON validation error at \"anyOf\": expected "
        ++ "string, but encountered boolean\n\nJSON validation error at "
        ++ "\"anyOf\": expected number, but encountered boolean")) ∧
    runParseProgram rtFalse 50 schemaUnion 20 (.num 5) =
      .ok (.ok (.num 5)) := by
  refine ⟨?_, ?_, by rfl, by rfl⟩
  · intro rt refs fuel s ctx v pre b post r href hao hpre hb
    simp only [runSchema, href, hao]
    exact runAnyOfLoop_first_success _ _ _ _ _ _ hpre hb []
  · intro rt refs fuel s ctx v branches msgs href hao hall
    constructor
    · simp only [runSchema, href, hao]
      have h := runAnyOfLoop_all_fail
        (fun b => runSchema rt refs fuel b (ctx ++ ["anyOf"]) v)
        (mkErrorHeader ctx) branches msgs hall []
      simpa using h
    · intro m hm
      obtain ⟨a, b, hab⟩ := joinSep_mem_decomp "\n\n" msgs m hm
      exact ⟨mkErrorHeader ctx ++
        " failed to match any of the specified types: " ++ a, b,
        by rw [hab]; simp [String.append_assoc]⟩

/-- Witness for C2: both parts instantiated on
`anyOf: [string, number]` applied to `true` (all branches fail; the
aggregate message decomposes around the second branch's message) and to
`5` (first branch fails, second succeeds first, result `5`). -/
theorem claim_C2_union_witness :
    runSchema rtFalse [] 20 schemaUnion [] (.num 5) = .ok (.num 5) ∧
    (runSchema rtFalse [] 20 schemaUnion [] (.bool true) =
      .err ("JSON validation error at root: failed to match any of the "
        ++ "specified types: JSON validation error at \"anyOf\": expected "
        ++ "string, but encountered boolean\n\nJSON validation error at "
        ++ "\"anyOf\": expected number, but encountered boolean") ∧
     ∀ m ∈ ["JSON validation error at \"anyOf\": expected string, but encountered boolean",
            "JSON validation error at \"anyOf\": expected number, but encountered boolean"],
       ∃ a b : String,
         mkErrorHeader [] ++ " failed to match any of the specified types: "
           ++ joinSep "\n\n"
             ["JSON validation error at \"anyOf\": expected string, but encountered boolean",
              "JSON validation error at \"anyOf\": expected number, but encountered boolean"]
           = a ++ (m ++ b)) := by
  constructor
  · exact claim_C2_union_first_match_and_aggregation.1 rtFalse [] 19
      schemaUnion [] (.num 5) [stringSchemaNode] numberNode [] (.num 5)
      rfl rfl
      (by
        intro p hp
        simp at hp
        subst hp
        exact ⟨_, by rfl⟩)
      (by rfl)
  · have h := claim_C2_union_first_match_and_aggregation.2.1 rtFalse [] 19
      schemaUnion [] (.bool true) [stringSchemaNode, numberNode]
      ["JSON validation error at \"anyOf\": expected string, but encountered boolean",
       "JSON validation error at \"anyOf\": expected number, but encountered boolean"]
      rfl rfl
      (by
        constructor
        · rfl
        · constructor
          · rfl
          · exact List.Forall₂.nil)
    constructor
    · have h1 := h.1
      simpa [mkErrorHeader, joinDot, joinSep, String.append_assoc] using h1
    · exact h.2

/-- C3 counterexample: the claim quantifies over every schema whose root
has `type: "object"`, but for the root `{ type: "object" }` with no
`properties` key the generator does not synthesize the implicit
`$schema` property at all — `const { ...propertiesRest } = properties`
destructures `undefined` and throws a TypeError, so generation crashes
and no validator exists: the program run on an input carrying an extra
`$schema` string key fails at generation time instead of accepting
it. -/
theorem claim_C3_counterexample :
    synthRoot schemaOpenObject =
      .error (.jsError
        "TypeError: Cannot destructure properties as it is undefined") ∧
    generateParserCode 50 schemaOpenObject false none =
      .error (.jsError
        "TypeError: Cannot destructure properties as it is undefined") ∧
    runValidateProgram rtFalse 50 schemaOpenObject 20
      (.obj [("$schema", .str "anything")]) =
      .error (.jsError
        "TypeError: Cannot destructure properties as it is undefined") :=
  ⟨by rfl, by rfl, by rfl⟩

/-- C3 (amended): when the root transformation succeeds — i.e. for every
object root that carries a `properties` key — generateParser synthesizes
an implicit `$schema` string property into the effective root property
set before generating code: the effective `$schema` property is the
author's own declaration when one exists (spread semantics: the author's
last declaration wins) and the implicit `{ type: "string" }` node
otherwise. An object root without a `properties` key instead crashes
generation with a TypeError (see the counterexample), so no code is
generated for it. Concretely, with `additionalProperties: false` and no
declared `$schema`, the generated validator accepts an extra `$schema`
string key (while still rejecting other extra keys); and when the
author declares `$schema` with a pattern, a matching value is accepted
and a non-matching value is rejected. -/
theorem claim_C3_implicit_schema_property :
    (∀ s root : Schema, s.type = some "object" → synthRoot s = .ok root →
      lookupProp root "$schema" =
        some ((((s.properties.getD []).reverse).lookup "$schema").getD
          stringSchemaNode)) ∧
    (∀ s : Schema, s.type = some "object" → s.properties = none →
      synthRoot s =
        .error (.jsError
          "TypeError: Cannot destructure properties as it is undefined")) ∧
    runValidateProgram rtFalse 50 schemaIgnoreSchema 20
      (.obj [("$schema", .str "yep"), ("str", .str "hi")]) =
      .ok (.ok .undef) ∧
    runValidateProgram rtFalse 50 schemaIgnoreSchema 20
      (.obj [("test", .num 1), ("str", .str "hi")]) =
      .ok (.err
        "JSON validation error at root: encountered unexpected property: test") ∧
    runValidateProgram rtThisExactly 50 schemaValidateSchema 20
      (.obj [("$schema", .str "this exactly"), ("str", .str "hi")]) =
      .ok (.ok .undef) ∧
    runValidateProgram rtThisExactly 50 schemaValidateSchema 20
      (.obj [("$schema", .str "not exactly"), ("str", .str "hi")]) =
      .ok (.err ("JSON validation error at \"$schema\": string did not match "
        ++ "pattern /^this exactly$/: not exactly")) := by
  refine ⟨fun s root h hok => synthRoot_schema_prop s root h hok, ?_,
    by rfl, by rfl, by rfl, by rfl⟩
  intro s h hp
  unfold synthRoot
  rw [if_pos h, hp]

/-- Witness for C3 (amended): at the test-suite schema with no declared
`$schema`, the root transformation succeeds and the effective root
`$schema` property is the implicit string node; at the propertyless
object root, the root transformation throws the TypeError. -/
theorem claim_C3_implicit_schema_property_witness :
    lookupProp
        (objectNode [("$schema", stringSchemaNode), ("str", stringSchemaNode)]
          (some ["str"]) (some (.inl false))) "$schema" =
      some (((([("str", stringSchemaNode)] :
        List (String × Schema)).reverse).lookup "$schema").getD
          stringSchemaNode) ∧
    synthRoot schemaOpenObject =
      .error (.jsError
        "TypeError: Cannot destructure properties as it is undefined") :=
  ⟨claim_C3_implicit_schema_property.1 schemaIgnoreSchema
      (objectNode [("$schema", stringSchemaNode), ("str", stringSchemaNode)]
        (some ["str"]) (some (.inl false))) rfl (by rfl),
   claim_C3_implicit_schema_property.2.1 schemaOpenObject rfl rfl⟩

/-- C4 counterexample: the claim says a value missing a property
required by any `allOf` branch is rejected, but for
`allOf: [{... required: ["a"]}, {... required: ["b"]}]` the generated
validator accepts `{b: 0}`, which is missing `a` (required by the first
branch): the shallow spread merge overwrote the first branch's
`required` with the second's. -/
theorem claim_C4_counterexample :
    runValidateProgram rtFalse 50 schemaAllOfTwo 20 (.obj [("b", .num 0)]) =
      .ok (.ok .undef) := by rfl

/-- C4 (amended): the `allOf` flattening is a shallow object-spread
merge, so for every key the merged node's value is the LAST branch's
value when that branch declares the key (not a union): in particular
the effective `required` list is the last declaring branch's, and a
value missing a property required only by an earlier branch can be
accepted. Concretely, for the two-branch intersection above, `{}` and
`{a: 0}` are rejected naming only `[b]`, and `{b: 0}` is accepted. -/
theorem claim_C4_allOf_merge_last_wins :
    (∀ items : List Schema,
      (mergeAllOf items).required =
        items.foldl (fun acc s => spreadKey acc s.required) none) ∧
    (∀ items : List Schema,
      (mergeAllOf items).properties =
        items.foldl (fun acc s => spreadKey acc s.properties) none) ∧
    runValidateProgram rtFalse 50 schemaAllOfTwo 20 (.obj []) =
      .ok (.err ("JSON validation error at \"allOf\": missing at least one "
        ++ "required property from the list: [b]")) ∧
    runValidateProgram rtFalse 50 schemaAllOfTwo 20 (.obj [("a", .num 0)]) =
      .ok (.err ("JSON validation error at \"allOf\": missing at least one "
        ++ "required property from the list: [b]")) ∧
    runValidateProgram rtFalse 50 schemaAllOfTwo 20 (.obj [("b", .num 0)]) =
      .ok (.ok .undef) := by
  have hreq : ∀ (l : List Schema) (init : Schema),
      (l.foldl mergeTwo init).required =
        l.foldl (fun acc s => spreadKey acc s.required) init.required := by
    intro l
    induction l with
    | nil => intro init; rfl
    | cons x xs ih =>
        intro init
        simp only [List.foldl_cons]
        rw [ih]
        have : (mergeTwo init x).required = spreadKey init.required x.required := by
          obtain ⟨t₁, r₁, ty₁, pa₁, f₁, ao₁, al₁, pr₁, rq₁, ad₁, i₁, d₁⟩ := init
          obtain ⟨t₂, r₂, ty₂, pa₂, f₂, ao₂, al₂, pr₂, rq₂, ad₂, i₂, d₂⟩ := x
          rfl
        rw [this]
  have hprops : ∀ (l : List Schema) (init : Schema),
      (l.foldl mergeTwo init).properties =
        l.foldl (fun acc s => spreadKey acc s.properties) init.properties := by
    intro l
    induction l with
    | nil => intro init; rfl
    | cons x xs ih =>
        intro init
        simp only [List.foldl_cons]
        rw [ih]
        have : (mergeTwo init x).properties =
            spreadKey init.properties x.properties := by
          obtain ⟨t₁, r₁, ty₁, pa₁, f₁, ao₁, al₁, pr₁, rq₁, ad₁, i₁, d₁⟩ := init
          obtain ⟨t₂, r₂, ty₂, pa₂, f₂, ao₂, al₂, pr₂, rq₂, ad₂, i₂, d₂⟩ := x
          rfl
        rw [this]
  exact ⟨fun items => hreq items emptySchema,
    fun items => hprops items emptySchema, by rfl, by rfl, by rfl⟩

/-! ## Registry invariants (for C5) -/

theorem GenM.bind_eq_ok {α β : Type} {x : GenM α} {f : α → GenM β} {b : β}
    (h : GenM.bind x f = .ok b) : ∃ a, x = .ok a ∧ f a = .ok b := by
  cases x with
  | ok a => exact ⟨a, rfl, h⟩
  | error e => simp [GenM.bind] at h
  | outOfFuel => simp [GenM.bind] at h

theorem GenM.ofExcept_eq_ok {α : Type} {e : Except GenError α} {a : α}
    (h : GenM.ofExcept e = .ok a) : e = .ok a := by
  cases e with
  | ok x => simpa [GenM.ofExcept] using h
  | error err => simp [GenM.ofExcept] at h

theorem mem_assocSet {α : Type} {m : List (String × α)} {k : String} {v : α}
    {kv : String × α} (h : kv ∈ assocSet m k v) : kv ∈ m ∨ kv = (k, v) := by
  induction m with
  | nil => simp [assocSet] at h; simp [h]
  | cons kv₀ rest ih =>
      obtain ⟨k₀, v₀⟩ := kv₀
      by_cases h0 : k₀ = k
      · subst h0
        simp only [assocSet, if_pos rfl] at h
        rcases List.mem_cons.mp h with h1 | h1
        · exact Or.inr (by simp [h1])
        · exact Or.inl (List.mem_cons_of_mem _ h1)
      · simp only [assocSet, if_neg h0] at h
        rcases List.mem_cons.mp h with h1 | h1
        · exact Or.inl (by simp [h1])
        · rcases ih h1 with h2 | h2
          · exact Or.inl (List.mem_cons_of_mem _ h2)
          · exact Or.inr h2

theorem keys_assocSet_subset {α : Type} {m : List (String × α)} {k : String}
    {v : α} {a : String} (h : a ∈ (assocSet m k v).map Prod.fst) :
    a ∈ m.map Prod.fst ∨ a = k := by
  obtain ⟨kv, hkv, hfst⟩ := List.mem_map.mp h
  rcases mem_assocSet hkv with h1 | h1
  · exact Or.inl (List.mem_map.mpr ⟨kv, h1, hfst⟩)
  · subst h1; exact Or.inr (by simpa using hfst.symm)

theorem nodup_assocSet {α : Type} {m : List (String × α)} (k : String) (v : α)
    (h : (m.map Prod.fst).Nodup) : ((assocSet m k v).map Prod.fst).Nodup := by
  induction m with
  | nil => simp [assocSet]
  | cons kv₀ rest ih =>
      obtain ⟨k₀, v₀⟩ := kv₀
      simp only [List.map_cons, List.nodup_cons] at h
      by_cases h0 : k₀ = k
      · subst h0
        have hred : assocSet ((k₀, v₀) :: rest) k₀ v = (k₀, v) :: rest := by
          simp [assocSet]
        rw [hred]
        simp only [List.map_cons, List.nodup_cons]
        exact ⟨h.1, h.2⟩
      · have hred : assocSet ((k₀, v₀) :: rest) k v =
            (k₀, v₀) :: assocSet rest k v := by
          simp [assocSet, h0]
        rw [hred]
        simp only [List.map_cons, List.nodup_cons]
        refine ⟨?_, ih h.2⟩
        intro hmem
        rcases keys_assocSet_subset hmem with h1 | h1
        · exact h.1 h1
        · exact h0 h1

theorem splitChars_ne_nil (sep : Char) :
    ∀ (l acc : List Char), splitChars sep l acc ≠ [] := by
  intro l
  induction l with
  | nil => intro acc; simp [splitChars]
  | cons c rest ih =>
      intro acc
      by_cases h : c = sep <;> simp [splitChars, h, ih]

/-- Only the root reference `#` has an empty reference path: a matched
reference is `#` followed by its capture, and a non-empty capture
always splits into at least one segment. -/
theorem refPath_empty_imp_root {r c : String}
    (hm : internalReferenceMatchCapture r = some c)
    (hp : convertReferenceToPath c = []) : r = "#" := by
  unfold internalReferenceMatchCapture at hm
  by_cases hpre : strStartsWith r "#" = true
  · rw [if_pos hpre] at hm
    by_cases hrest : strTail r = ""
    · -- empty capture: r is exactly "#"
      have htail : r.data.tail = [] := by
        have := congrArg String.data hrest
        simpa [strTail] using this
      have hpfx : ("#".data).isPrefixOf r.data = true := hpre
      obtain ⟨data⟩ := r
      cases data with
      | nil => simp [List.isPrefixOf] at hpfx
      | cons c₀ t =>
          simp at htail
          subst htail
          have hc₀ : c₀ = '#' := by
            have : ('#' == c₀) = true := by
              simpa [List.isPrefixOf] using hpfx
            exact (beq_iff_eq.mp this).symm
          subst hc₀
          rfl
    · -- non-empty capture: the path splits into at least one segment
      rw [if_neg hrest] at hm
      by_cases hslash : (strStartsWith (strTail r) "/"
          && ((strSplitOnChar '/' (strTail (strTail r))).all
            (fun seg => seg ≠ "" && seg.data.all isRefSegmentChar)) : Bool)
            = true
      · rw [if_pos hslash] at hm
        have hc : c = strTail r := by
          cases hm
          rfl
        subst hc
        rw [convertReferenceToPath, if_neg hrest] at hp
        exact absurd hp (splitChars_ne_nil '/' _ _)
      · rw [if_neg hslash] at hm
        simp at hm
  · rw [if_neg hpre] at hm
    simp at hm

/-- The registry invariant: keys are distinct (JavaScript object keys)
and only the key `#` can carry an empty reference path. -/
def RegInv (refs : RefList) : Prop :=
  ((refs.map Prod.fst).Nodup) ∧ ∀ kv ∈ refs, kv.2.path = [] → kv.1 = "#"

theorem regInv_assocSet {refs : RefList} {r : String} {entry : RefEntry}
    (h : RegInv refs) (hpath : entry.path = [] → r = "#") :
    RegInv (assocSet refs r entry) := by
  constructor
  · exact nodup_assocSet r entry h.1
  · intro kv hkv hp
    rcases mem_assocSet hkv with h1 | h1
    · exact h.2 kv h1 hp
    · subst h1; exact hpath hp

theorem accumulateCallback_regInv {root s : Schema} {path : List String}
    {refs out : RefList} (hinv : RegInv refs)
    (h : accumulateCallback root s path refs = .ok out) : RegInv out := by
  unfold accumulateCallback at h
  split at h
  · cases h; exact hinv
  · rename_i r htr
    split at h
    · simp at h
    · rename_i capture hm
      simp only [bind, Except.bind] at h
      split at h
      · simp at h
      · rename_i target hev
        simp only [Except.ok.injEq] at h
        subst h
        exact regInv_assocSet hinv (fun hp => refPath_empty_imp_root hm hp)

theorem accPropsLoop_regInv
    {accSub : Schema → List String → RefList → GenM RefList}
    (hsub : ∀ p pth r out, RegInv r → accSub p pth r = .ok out → RegInv out) :
    ∀ (props : List (String × Schema)) (path : List String)
      (refs out : RefList), RegInv refs →
      accPropsLoop accSub props path refs = .ok out → RegInv out := by
  intro props
  induction props with
  | nil =>
      intro path refs out hinv h
      simp only [accPropsLoop] at h
      cases h
      exact hinv
  | cons p rest ih =>
      intro path refs out hinv h
      obtain ⟨propertyName, property⟩ := p
      simp only [accPropsLoop] at h
      obtain ⟨mid, hmid, hrest⟩ := GenM.bind_eq_ok h
      exact ih path mid out (hsub _ _ _ _ hinv hmid) hrest

/-- The discovery traversal preserves the registry invariant. -/
theorem accumulateReferencesF_regInv (root : Schema) :
    ∀ (fuel : Nat) (s : Schema) (path : List String) (refs out : RefList),
      RegInv refs → accumulateReferencesF root fuel s path refs = .ok out →
      RegInv out := by
  intro fuel
  induction fuel with
  | zero => intro s path refs out hinv h; simp [accumulateReferencesF] at h
  | succ fuel ih =>
      intro s path refs out hinv h
      simp only [accumulateReferencesF] at h
      obtain ⟨refs₁, hcb, hrest⟩ := GenM.bind_eq_ok h
      have hinv₁ := accumulateCallback_regInv hinv (GenM.ofExcept_eq_ok hcb)
      by_cases hobj : s.type = some "object"
      · rw [if_pos hobj] at hrest
        cases hp : s.properties with
        | none => rw [hp] at hrest; cases hrest; exact hinv₁
        | some props =>
            rw [hp] at hrest
            exact accPropsLoop_regInv
              (fun p pth r o hi hh => ih p pth r o hi hh) props path refs₁
              out hinv₁ hrest
      · rw [if_neg hobj] at hrest
        by_cases harr : s.type = some "array"
        · rw [if_pos harr] at hrest
          cases hi' : s.items with
          | none => rw [hi'] at hrest; simp at hrest
          | some it =>
              rw [hi'] at hrest
              exact ih it (path ++ ["items"]) refs₁ out hinv₁ hrest
        · rw [if_neg harr] at hrest
          cases hrest
          exact hinv₁

theorem length_filter_le_one {l : RefList}
    (hnodup : (l.map Prod.fst).Nodup)
    (hroot : ∀ kv ∈ l, kv.2.path = [] → kv.1 = "#") :
    (l.filter (fun kv => kv.2.path.isEmpty)).length ≤ 1 := by
  induction l with
  | nil => simp
  | cons kv rest ih =>
      simp only [List.map_cons, List.nodup_cons] at hnodup
      cases hpe : (kv.2.path.isEmpty : Bool)
      · simp only [List.filter_cons, hpe]
        exact ih hnodup.2 (fun kv' h' => hroot kv' (List.mem_cons_of_mem _ h'))
      · simp only [List.filter_cons, hpe]
        have hrest0 : rest.filter (fun kv => kv.2.path.isEmpty) = [] := by
          by_contra hne
          obtain ⟨kv', hkv'⟩ := List.exists_mem_of_ne_nil _ hne
          have h1 : kv' ∈ rest := (List.mem_filter.mp hkv').1
          have h2 : kv'.2.path = [] := by
            simpa [List.isEmpty_iff] using (List.mem_filter.mp hkv').2
          have h3 := hroot kv' (List.mem_cons_of_mem _ h1) h2
          have h4 := hroot kv (List.mem_cons_self _ _)
            (by simpa [List.isEmpty_iff] using hpe)
          exact hnodup.1 (List.mem_map.mpr ⟨kv', h1, by rw [h3, h4]⟩)
        simp [hrest0]

/-- C5 counterexample: within one compilation of the parser generator,
two distinct reference-registry entries (keys `#/properties/foo` and
`#/properties/bar/properties/foo`) receive the same generated name
`Foo` — name assignment pascal-cases the final path segment, with no
cross-entry uniqueness enforcement. -/
theorem claim_C5_counterexample :
    (match GenM.bind (GenM.ofExcept (synthRoot schemaTwoFoos)) (fun root =>
        GenM.bind (accumulateReferences 50 root)
          (fun refs => GenM.ofExcept (assignNames refs 0))) with
     | .ok named => named.map (fun kv => (kv.1, kv.2.name))
     | _ => []) =
    [("#/properties/foo", some "Foo"),
     ("#/properties/bar/properties/foo", some "Foo")] := by rfl

/-- C5 (amended): naming is deterministic (a pure function of the
registry), and the numeric suffixing of rule (3) never actually needs
to disambiguate: registry keys are distinct and only the key `#` can
carry an empty path, so at most one entry is eligible for the
`UntitledReference` fallback. Cross-entry uniqueness, however, does not
hold in general (see the counterexample): two entries whose targets
share a title, or whose paths share a final segment, receive the same
name. -/
theorem claim_C5_registry_invariants :
    ∀ (fuel : Nat) (root : Schema) (out : RefList),
      accumulateReferences fuel root = .ok out →
      ((out.map Prod.fst).Nodup ∧
        (∀ kv ∈ out, kv.2.path = [] → kv.1 = "#")) ∧
      (out.filter (fun kv => kv.2.path.isEmpty)).length ≤ 1 := by
  intro fuel root out h
  have hinv : RegInv out :=
    accumulateReferencesF_regInv root fuel root [] [] out
      ⟨List.nodup_nil, by simp⟩ h
  exact ⟨hinv, length_filter_le_one hinv.1 hinv.2⟩

/-- The synthesized root for `schemaTwoFoos` (the result of its
successful root transformation, used to discharge the witness's
hypothesis by computation). -/
def twoFoosRoot : Schema :=
  objectNode [("$schema", stringSchemaNode), ("foo", numberNode),
    ("bar", objectNode [("foo", stringSchemaNode)] none none),
    ("x", refNode "#/properties/foo"),
    ("y", refNode "#/properties/bar/properties/foo")] none none

/-- The registry the traversal builds for `schemaTwoFoos` (used to
discharge the witness's hypothesis by computation). -/
def twoFoosRegistry : RefList :=
  [("#/properties/foo",
    { name := none, path := ["properties", "foo"],
      schema := some (.node numberNode) }),
   ("#/properties/bar/properties/foo",
    { name := none, path := ["properties", "bar", "properties", "foo"],
      schema := some (.node stringSchemaNode) })]

/-- Witness for the amended C5, at the two-references schema. -/
theorem claim_C5_registry_invariants_witness :
    (((twoFoosRegistry.map Prod.fst).Nodup ∧
      (∀ kv ∈ twoFoosRegistry, kv.2.path = [] → kv.1 = "#")) ∧
     (twoFoosRegistry.filter (fun kv => kv.2.path.isEmpty)).length ≤ 1) :=
  claim_C5_registry_invariants 50 twoFoosRoot twoFoosRegistry (by rfl)

/-! ## Reference resolution characterization (for C6) -/

/-- Walk the root document along a path, indexing at each step
(`undefined`, i.e. `none`, once any step is missing). -/
def walkVal (o : Option SchemaVal) (path : List String) : Option SchemaVal :=
  path.foldl (fun acc seg => acc.bind (fun v => getKey v seg)) o

/-- The walk hits `undefined` strictly before the last segment — the
only situation in which indexing throws. -/
def hasEarlyUndef : Option SchemaVal → List String → Bool
  | _, [] => false
  | none, _ :: _ => true
  | some v, seg :: rest => hasEarlyUndef (getKey v seg) rest

theorem evaluatePath_characterization :
    ∀ (path : List String) (o : Option SchemaVal),
      evaluatePath o path =
        if hasEarlyUndef o path then
          .error "TypeError: Cannot read properties of undefined"
        else .ok (walkVal o path) := by
  intro path
  induction path with
  | nil => intro o; simp [evaluatePath, hasEarlyUndef, walkVal]
  | cons seg rest ih =>
      intro o
      cases o with
      | none => simp [evaluatePath, hasEarlyUndef]
      | some v =>
          simp only [evaluatePath, hasEarlyUndef]
          rw [ih]
          simp [walkVal]

/-- C6 counterexample: the reference `#/nope` names a location that does
not exist, yet resolution silently yields an `undefined` target (no
GenerationError), and the compilation of a schema containing that
reference then fails with a plain TypeError — a JavaScript error kind,
not a generation error. -/
theorem claim_C6_counterexample :
    synthRoot schemaMissingFinal =
      .ok (objectNode [("$schema", stringSchemaNode), ("x", refNode "#/nope")]
        none none) ∧
    evaluateReference
        (objectNode [("$schema", stringSchemaNode), ("x", refNode "#/nope")]
          none none) "#/nope" ["nope"] =
      .ok none ∧
    generateParserCode 50 schemaMissingFinal false none =
      .error (.jsError
        "TypeError: Cannot read properties of undefined (reading title)") :=
  ⟨by rfl, by rfl, by rfl⟩

/-- C6 (amended): resolution raises a fatal GenerationError exactly when
a missing path segment is followed by at least one more segment (the
walk reaches `undefined` strictly before the last segment, and indexing
`undefined` throws); a path whose only missing segment is the final one
resolves silently to an `undefined` target, and the compilation then
crashes later — with a TypeError during name assignment, not a
GenerationError. -/
theorem claim_C6_resolution_characterization :
    (∀ (root : Schema) (reference : String) (path : List String),
      evaluateReference root reference path =
        if hasEarlyUndef (some (.node root)) path then
          .error (.generationError ("Failed to evaluate reference " ++
            reference ++ ": TypeError: Cannot read properties of undefined"))
        else .ok (walkVal (some (.node root)) path)) ∧
    GenM.bind (GenM.ofExcept (synthRoot schemaMissingDeep))
        (fun root => accumulateReferences 50 root) =
      .error (.generationError ("Failed to evaluate reference #/nope/deeper: "
        ++ "TypeError: Cannot read properties of undefined")) := by
  constructor
  · intro root reference path
    unfold evaluateReference
    rw [evaluatePath_characterization]
    by_cases h : hasEarlyUndef (some (.node root)) path = true
    · simp [h]
      rw [String.append_assoc]
      congr 1
    · simp [h]
  · rfl

/-- C7 counterexample: a node carrying `$ref: ""` — a `$ref` string
that does not match the internal-reference grammar — is silently
ignored by reference accumulation (the empty string is falsy), with no
GenerationError. -/
theorem claim_C7_counterexample :
    accumulateReferences 50 schemaEmptyRef = .ok [] := by rfl

/-- C7 (amended): every node carrying a truthy (non-empty) `$ref`
string that does not match the internal-reference grammar
`^#(/[$a-zA-Z0-9]+)*$` aborts the traversal immediately with a
GenerationError identifying the offending location; an empty-string
`$ref` is falsy in JavaScript and is silently skipped instead.
Concretely, a schema whose property carries
`$ref: "http://example.com/schema"` fails compilation with the
GenerationError naming `properties.x`. -/
theorem claim_C7_bad_reference_is_fatal :
    (∀ (root s : Schema) (fuel : Nat) (path : List String) (refs : RefList)
        (r : String),
      truthyStr s.ref = some r → internalReferenceMatchCapture r = none →
      accumulateReferencesF root (fuel + 1) s path refs =
        .error (.generationError
          ("Unsupported reference in " ++ joinDot path ++ ": " ++ r))) ∧
    GenM.bind (GenM.ofExcept (synthRoot schemaBadRef))
        (fun root => accumulateReferences 50 root) =
      .error (.generationError
        "Unsupported reference in properties.x: http://example.com/schema") := by
  constructor
  · intro root s fuel path refs r htr hm
    simp only [accumulateReferencesF, accumulateCallback, htr, hm,
      GenM.ofExcept, GenM.bind]
  · rfl

/-- Witness for C7: the per-node statement at the concrete offending
node of `schemaBadRef`. -/
theorem claim_C7_bad_reference_is_fatal_witness :
    accumulateReferencesF
      (objectNode [("$schema", stringSchemaNode),
        ("x", refNode "http://example.com/schema")] none none) 50
      (refNode "http://example.com/schema") ["properties", "x"] [] =
      .error (.generationError
        ("Unsupported reference in " ++ joinDot ["properties", "x"] ++ ": " ++
          "http://example.com/schema")) :=
  claim_C7_bad_reference_is_fatal.1
    (objectNode [("$schema", stringSchemaNode),
      ("x", refNode "http://example.com/schema")] none none)
    (refNode "http://example.com/schema") 49 ["properties", "x"] []
    "http://example.com/schema" rfl (by rfl)

/-- C8 (the code bug): for the date-free schema `{ type: "object",
properties: { b: { type: "number" } } }` with `additionalProperties`
absent (i.e. open), the generated validator accepts `{a: 1}`, but the
generated parser returns `{a: undefined}` — the extra key's value is
dropped because the switch inside
`ResultObject[Key] = (() => { switch ... })()` has no case and no
default for it, so the IIFE returns `undefined`. The returned value is
not deep-equal to the input, contradicting the claimed idempotence (and
the test suite's own "Parsed value should be the same as the input"
expectation). -/
theorem claim_C8_parse_undefines_extra_keys :
    runParseProgram rtFalse 50 schemaOpenWithProp 20 (.obj [("a", .num 1)]) =
      .ok (.ok (.obj [("a", .undef)])) ∧
    runValidateProgram rtFalse 50 schemaOpenWithProp 20
      (.obj [("a", .num 1)]) = .ok (.ok .undef) ∧
    Js.obj [("a", .undef)] ≠ Js.obj [("a", .num 1)] :=
  ⟨by rfl, by rfl, by simp⟩

set_option maxRecDepth 10000 in
/-- C9: code generation terminates on cyclic schemas. (1) The code
generator needs at most `sizeOf`-many structural steps on any schema —
in particular a reference node is lowered to a helper call rather than
inlined, so `$ref` cycles cannot make it recurse forever. (2) The
reference-discovery traversal likewise terminates: it follows only
structural `properties`/`items` edges and never `$ref` edges. (3) A
reference node's generated code is exactly the call to the target's
helper — one step, independent of the target schema's content. (4)
Concretely, the self-referencing schema (an object whose property
refers back to `#`) compiles to a finite artifact whose helper calls
itself and is called by `parse`, rather than being inlined. -/
theorem claim_C9_generator_terminates_on_cycles :
    (∀ (references : RefList) (fuel : Nat) (schema : Schema)
        (valuePath contextPath : List String) (types : Bool),
      sizeOf schema < fuel →
      generateRecursiveF references fuel schema valuePath contextPath types ≠
        .outOfFuel) ∧
    (∀ (root : Schema) (fuel : Nat) (s : Schema) (path : List String)
        (refs : RefList),
      sizeOf s < fuel →
      accumulateReferencesF root fuel s path refs ≠ .outOfFuel) ∧
    (∀ (references : RefList) (fuel : Nat) (s : Schema)
        (valuePath contextPath : List String) (types : Bool) (r : String)
        (entry : RefEntry),
      truthyStr s.ref = some r → lookupRef references r = some entry →
      generateRecursiveF references (fuel + 1) s valuePath contextPath types =
        .ok ("return parse" ++ entry.name.getD "undefined" ++ "(" ++
          joinDot valuePath ++ ");\n")) ∧
    (match generateParserCode 50 schemaSelfRef false none with
     | .ok _ => true
     | _ => false) = true ∧
    (match generateParserCode 50 schemaSelfRef false none with
     | .ok c =>
         strContains c "function parseUntitledReference1(json)" &&
         strContains c "return parseUntitledReference1(jsonValue);" &&
         strContains c "return parseUntitledReference1(json);"
     | _ => false) = true := by
  refine ⟨?_, ?_, ?_, by rfl, by rfl⟩
  · intro references fuel schema vp cp t h
    exact generateRecursiveF_total references fuel schema vp cp t h
  · intro root fuel s path refs h
    exact accumulateReferencesF_total root fuel s path refs h
  · intro references fuel s vp cp t r entry htr hlook
    simp only [generateRecursiveF, htr, hlook]

/-- Witness for C9: its three hypothesis-bearing parts instantiated at
the self-referencing schema's reference node and registry. -/
theorem claim_C9_generator_terminates_on_cycles_witness :
    (generateRecursiveF [] 100000 (refNode "#") ["json"] [] false ≠
      .outOfFuel) ∧
    (accumulateReferencesF schemaSelfRef 100000 schemaSelfRef [] [] ≠
      .outOfFuel) ∧
    generateRecursiveF
        [("#", { name := some "UntitledReference1", path := [],
                 schema := some (.node schemaSelfRef) })]
        50 (refNode "#") ["jsonValue"] ["next"] false =
      .ok ("return parse" ++
        (some "UntitledReference1").getD "undefined" ++ "(" ++
        joinDot ["jsonValue"] ++ ");\n") :=
  ⟨claim_C9_generator_terminates_on_cycles.1 [] 100000 (refNode "#") ["json"] []
      false (by decide),
   claim_C9_generator_terminates_on_cycles.2.1 schemaSelfRef 100000
      schemaSelfRef [] [] (by decide),
   claim_C9_generator_terminates_on_cycles.2.2.1
      [("#", { name := some "UntitledReference1", path := [],
               schema := some (.node schemaSelfRef) })]
      49 (refNode "#") ["jsonValue"] ["next"] false "#"
      { name := some "UntitledReference1", path := [],
        schema := some (.node schemaSelfRef) } rfl (by rfl)⟩

/-- C10: every artifact the parser generator emits ends with the
`validate` wrapper `export function validate(json) { parse(json); }` —
`validate` invokes `parse` and discards its result — and semantically
the program's `validate` entry point raises exactly when `parse` raises
(with the same error value), returning the meaningless `undefined` when
`parse` returns a value. -/
theorem claim_C10_validate_delegates_to_parse :
    (∀ (fuel : Nat) (schema : Schema) (types : Bool)
        (rootTypeName : Option String) (c : String),
      generateParserCode fuel schema types rootTypeName = .ok c →
      ∃ p, c = p ++ validateBlock types) ∧
    (∀ (rt : String → String → Bool) (genFuel : Nat) (schema : Schema)
        (fuel : Nat) (v : Js) (e : String),
      runValidateProgram rt genFuel schema fuel v = .ok (.err e) ↔
      runParseProgram rt genFuel schema fuel v = .ok (.err e)) ∧
    (∀ (rt : String → String → Bool) (genFuel : Nat) (schema : Schema)
        (fuel : Nat) (v : Js) (w : Js),
      runParseProgram rt genFuel schema fuel v = .ok (.ok w) →
      runValidateProgram rt genFuel schema fuel v = .ok (.ok .undef)) := by
  refine ⟨?_, ?_, ?_⟩
  · intro fuel schema types rootTypeName c h
    unfold generateParserCode at h
    obtain ⟨root, hroot, h⟩ := GenM.bind_eq_ok h
    obtain ⟨refs, hacc, h⟩ := GenM.bind_eq_ok h
    obtain ⟨refs₂, hassign, h⟩ := GenM.bind_eq_ok h
    obtain ⟨helpers, hhelpers, h⟩ := GenM.bind_eq_ok h
    obtain ⟨parseBody, hparse, h⟩ := GenM.bind_eq_ok h
    simp only [GenM.ok.injEq] at h
    exact ⟨_, h.symm⟩
  · intro rt genFuel schema fuel v e
    unfold runValidateProgram
    cases hp : runParseProgram rt genFuel schema fuel v with
    | ok out =>
        cases out <;> simp [GenM.bind]
    | error ge => simp [GenM.bind]
    | outOfFuel => simp [GenM.bind]
  · intro rt genFuel schema fuel v w h
    unfold runValidateProgram
    rw [h]
    rfl

/-- The artifact generated for `{ type: "string" }` (used to discharge
the witness's hypothesis by computation). -/
def sampleParserOutput : String :=
  match generateParserCode 50 stringSchemaNode false none with
  | .ok c => c
  | _ => ""

set_option maxRecDepth 10000 in
/-- Witness for C10: the emitted artifact for `{ type: "string" }` ends
with the `validate` wrapper, and on the accepted input `"x"` the
program's `validate` returns `undefined` while `parse` returns the
value. -/
theorem claim_C10_validate_delegates_to_parse_witness :
    (∃ p, sampleParserOutput = p ++ validateBlock false) ∧
    runValidateProgram rtFalse 50 stringSchemaNode 20 (.str "x") =
      .ok (.ok .undef) :=
  ⟨claim_C10_validate_delegates_to_parse.1 50 stringSchemaNode false none
      sampleParserOutput (by rfl),
   claim_C10_validate_delegates_to_parse.2.2 rtFalse 50 stringSchemaNode 20
      (.str "x") (.str "x") (by rfl)⟩

end JsonSchemaAot
